import Mathlib

/-
Shallow embedding of the Meep runtime core (graphs/_data.py, graphs/_mcp.py,
graphs/_formatting.py).  Dates are modelled as natural numbers (only their
ordering matters to the modelled code); Python dicts are modelled as
insertion-ordered association lists with first-occurrence lookup and
in-place replacement, matching Python dict semantics on duplicate-free
key lists.  Fallible code (raise) is modelled with Except String.
-/

-- ===================== association list helpers (Python dict) =====================

def lookupD {κ α : Type} [DecidableEq κ] : List (κ × α) → κ → Option α
  | [], _ => none
  | (k', v) :: rest, k => if k' = k then some v else lookupD rest k

/-- Python dict assignment: replace the first binding of the key in place,
otherwise append the new binding at the end. -/
def dictSet {κ α : Type} [DecidableEq κ] : List (κ × α) → κ → α → List (κ × α)
  | [], k, v => [(k, v)]
  | (k', v') :: rest, k, v =>
    if k' = k then (k, v) :: rest else (k', v') :: dictSet rest k v

def dictKeys {κ α : Type} (l : List (κ × α)) : List κ := l.map Prod.fst

-- ===================== data model (graphs/_data.py) =====================

abbrev Date := Nat

structure ToolCall where
  id : String
  name : String
deriving DecidableEq, Repr

inductive ToolCallStatus where
  | unconfirmed | confirmed | canceled | rejected | processing | completed | failed
deriving DecidableEq, Repr

inductive ExternalStatus where
  | error | success
deriving DecidableEq, Repr

def EXTERNAL_STATUS_MAPPING : ToolCallStatus → ExternalStatus
  | .completed => .success
  | _ => .error

structure InternalToolMessage where
  tool_call_id : String
  internal_status : ToolCallStatus := .unconfirmed
  status : ExternalStatus := .error
  content : Option String := none
deriving DecidableEq, Repr

def InternalToolMessage.set_status (m : InternalToolMessage)
    (internal_status : ToolCallStatus) (content : Option String) : InternalToolMessage :=
  let m := { m with
    internal_status := internal_status,
    status := EXTERNAL_STATUS_MAPPING internal_status }
  match content with
  | some c => { m with content := some c }
  | none => m

structure HumanMessage_ where
  content : String
  date : Date
  summary : Option String := none
  author : Option String := none
  message_id : Option Nat := none
deriving DecidableEq, Repr

structure AIMessage_ where
  content : String
  date : Date
  summary : Option String := none
  activity : String := "conversing"
  tool_calls : List ToolCall := []
  internal_tool_messages : List (String × InternalToolMessage) := []
deriving DecidableEq, Repr

structure SystemMessage_ where
  content : String
  date : Date
  summary : Option String := none
  author : Option String := none
  lifespan : Option Nat := none
deriving DecidableEq, Repr

inductive StructuredMessage where
  | human : HumanMessage_ → StructuredMessage
  | ai : AIMessage_ → StructuredMessage
  | system : SystemMessage_ → StructuredMessage
deriving DecidableEq, Repr

def StructuredMessage.date : StructuredMessage → Date
  | .human m => m.date
  | .ai m => m.date
  | .system m => m.date

def StructuredMessage.content : StructuredMessage → String
  | .human m => m.content
  | .ai m => m.content
  | .system m => m.content

def StructuredMessage.summary : StructuredMessage → Option String
  | .human m => m.summary
  | .ai m => m.summary
  | .system m => m.summary

def StructuredMessage.withDate : StructuredMessage → Date → StructuredMessage
  | .human m, d => .human { m with date := d }
  | .ai m, d => .ai { m with date := d }
  | .system m, d => .system { m with date := d }

structure Summary where
  max_date : Date
  min_date : Date
  summary : String
deriving DecidableEq, Repr

structure Channel where
  id : String
  name : String
  channel_type : String := "basic"
  wakeup_url : Option String := none
  messages : List StructuredMessage := []
  summaries : List (Date × List Summary) := []
  last_activity : Date
  max_summary_date : Date
  no_reactive_tool_call_before : Option Date := none
  no_temporary_message_before : Option Date := none
deriving DecidableEq, Repr

structure History where
  current_channel : Option String := none
  channels : List (String × Channel) := []
deriving DecidableEq, Repr

structure InternalChannelUpdates where
  name : Option String := none
  channel_type : Option String := none
  wakeup_url : Option String := none
  delete_before : Option Date := none
  no_reactive_tool_call_before : Option Date := none
  no_temporary_message_before : Option Date := none
  new_messages : List StructuredMessage := []
  message_updates : List (Nat × StructuredMessage) := []
  message_deletes : List Nat := []
  message_append_left : List StructuredMessage := []
  new_summaries : List Summary := []
deriving DecidableEq, Repr

structure InternalUpdates where
  channel_updates : List (String × InternalChannelUpdates) := []
  current_channel : Option String := none
  tool_updates : List InternalToolMessage := []
deriving DecidableEq, Repr

def InternalChannelUpdates.merge (self other : InternalChannelUpdates) : InternalChannelUpdates :=
  let s := self
  let s := match other.name with | some v => { s with name := some v } | none => s
  let s := match other.channel_type with | some v => { s with channel_type := some v } | none => s
  let s := match other.wakeup_url with | some v => { s with wakeup_url := some v } | none => s
  let s := match other.delete_before with | some v => { s with delete_before := some v } | none => s
  let s := match other.no_reactive_tool_call_before with
    | some v => { s with no_reactive_tool_call_before := some v } | none => s
  let s := match other.no_temporary_message_before with
    | some v => { s with no_temporary_message_before := some v } | none => s
  { s with
    new_messages := s.new_messages ++ other.new_messages,
    message_updates := other.message_updates.foldl
      (fun mu (p : Nat × StructuredMessage) => dictSet mu p.1 p.2) s.message_updates,
    message_deletes := s.message_deletes ++ other.message_deletes,
    message_append_left := s.message_append_left ++ other.message_append_left,
    new_summaries := s.new_summaries ++ other.new_summaries }

def internal_updates_reducer (left right : InternalUpdates) : InternalUpdates :=
  let l := { left with tool_updates := left.tool_updates ++ right.tool_updates }
  let l := match right.current_channel with
    | some c => { l with current_channel := some c }
    | none => l
  right.channel_updates.foldl
    (fun l (p : String × InternalChannelUpdates) =>
      let existing := (lookupD l.channel_updates p.1).getD {}
      { l with channel_updates := dictSet l.channel_updates p.1 (existing.merge p.2) })
    l

-- ===================== history reducer pieces =====================

def defaultChannel (cid : String) (now : Date) : Channel :=
  { id := cid, name := cid, last_activity := now, max_summary_date := now }

/-- Step 1.5 of the reducer: channel metadata updates (checked with `is not
None`).  Each field is assigned independently, so the conditional
assignments of the source are written as one record update. -/
def applyMeta (ch : Channel) (cu : InternalChannelUpdates) : Channel :=
  { ch with
    name := cu.name.getD ch.name,
    channel_type := cu.channel_type.getD ch.channel_type,
    wakeup_url := match cu.wakeup_url with | some v => some v | none => ch.wakeup_url,
    no_reactive_tool_call_before := match cu.no_reactive_tool_call_before with
      | some v => some v | none => ch.no_reactive_tool_call_before,
    no_temporary_message_before := match cu.no_temporary_message_before with
      | some v => some v | none => ch.no_temporary_message_before }

/-- Step 8 of the reducer: the same metadata assignments, guarded by Python
truthiness (an empty string is skipped; a datetime is always truthy). -/
def applyMetaAgain (ch : Channel) (cu : InternalChannelUpdates) : Channel :=
  { ch with
    name := match cu.name with
      | some v => if v = "" then ch.name else v | none => ch.name,
    channel_type := match cu.channel_type with
      | some v => if v = "" then ch.channel_type else v | none => ch.channel_type,
    wakeup_url := match cu.wakeup_url with
      | some v => if v = "" then ch.wakeup_url else some v | none => ch.wakeup_url,
    no_reactive_tool_call_before := match cu.no_reactive_tool_call_before with
      | some v => some v | none => ch.no_reactive_tool_call_before,
    no_temporary_message_before := match cu.no_temporary_message_before with
      | some v => some v | none => ch.no_temporary_message_before }

/-- Step 2: positional message updates; the stored date at the index is
preserved; out-of-bounds indices raise. -/
def applyMsgUpdates : List StructuredMessage → List (Nat × StructuredMessage) →
    Except String (List StructuredMessage)
  | msgs, [] => .ok msgs
  | msgs, (i, m) :: rest =>
    if h : i < msgs.length then
      applyMsgUpdates (msgs.set i (m.withDate (msgs.get ⟨i, h⟩).date)) rest
    else
      .error "Message ID out of bounds for channel messages."

/-- Step 3: index deletes, applied in descending index order. -/
def applyDeletes (msgs : List StructuredMessage) (deletes : List Nat) : List StructuredMessage :=
  (List.insertionSort (fun a b : Nat => b ≤ a) deletes).foldl
    (fun ms i => if i < ms.length then ms.eraseIdx i else ms) msgs

def minList : List Nat → Nat
  | [] => 0
  | x :: xs => xs.foldl Nat.min x

def maxList (l : List Nat) : Nat := l.foldl Nat.max 0

/-- Step 3b: `delete_before` pruning of messages and summaries, with the
recomputation of `max_summary_date`. -/
def applyDeleteBefore (now : Date) (ch : Channel) : Option Date → Channel
  | none => ch
  | some d =>
    let summs := ch.summaries.filter (fun p => d ≤ p.1)
    let msd :=
      if summs.isEmpty then now
      else
        let all_summary_dates := (summs.map (fun p => p.2.map (·.min_date))).flatten
        if all_summary_dates.isEmpty then ch.max_summary_date
        else minList all_summary_dates
    { ch with
      messages := ch.messages.filter (fun m => d ≤ m.date),
      summaries := summs,
      max_summary_date := msd }

/-- Step 4: left-appends, each clamping its date to the current head date. -/
def applyAppendLeft (msgs news : List StructuredMessage) : List StructuredMessage :=
  news.foldl
    (fun ms m =>
      match ms.head? with
      | some h0 => if h0.date < m.date then (m.withDate h0.date) :: ms else m :: ms
      | none => m :: ms)
    msgs

def msgLE (a b : StructuredMessage) : Prop := a.date ≤ b.date

instance : DecidableRel msgLE := fun a b => Nat.decLe a.date b.date

instance : IsTotal StructuredMessage msgLE := ⟨fun a b => Nat.le_total a.date b.date⟩

instance : IsTrans StructuredMessage msgLE := ⟨fun _ _ _ h1 h2 => Nat.le_trans h1 h2⟩

def lastDate (l : List StructuredMessage) : Date :=
  match l.getLast? with
  | some m => m.date
  | none => 0

/-- Step 5: append the new messages, tracking whether any append broke
chronological order, and re-sort (a stable sort, like Python sort) if so. -/
def applyNewMessages (msgs news : List StructuredMessage) : List StructuredMessage :=
  let p := news.foldl
    (fun (p : List StructuredMessage × Bool) m =>
      (p.1 ++ [m], p.2 || (!p.1.isEmpty && decide (m.date < lastDate p.1))))
    (msgs, false)
  if p.2 then List.insertionSort msgLE p.1 else p.1

def summMinLE (a b : Summary) : Prop := a.min_date ≤ b.min_date

instance : DecidableRel summMinLE := fun a b => Nat.decLe a.min_date b.min_date

instance : IsTotal Summary summMinLE := ⟨fun a b => Nat.le_total a.min_date b.min_date⟩

instance : IsTrans Summary summMinLE := ⟨fun _ _ _ h1 h2 => Nat.le_trans h1 h2⟩

/-- Step 7: insert each new summary at its `max_date` key (the per-key list
is kept sorted by `min_date`), then advance `max_summary_date`. -/
def applyNewSummaries (ch : Channel) (news : List Summary) : Channel :=
  if news.isEmpty then ch
  else
    let summs := news.foldl
      (fun ss s =>
        match lookupD ss s.max_date with
        | none => dictSet ss s.max_date [s]
        | some l => dictSet ss s.max_date (List.insertionSort summMinLE (l ++ [s])))
      ch.summaries
    let earliest := maxList (news.map (·.max_date))
    { ch with
      summaries := summs,
      max_summary_date := if ch.max_summary_date < earliest then earliest
        else ch.max_summary_date }

/-- Steps 3 through 8 of the per-channel loop (everything after the only
fallible step, the positional message updates). -/
def applyChannelRest (now : Date) (ch : Channel) (cu : InternalChannelUpdates) : Channel :=
  let ch := { ch with messages := applyDeletes ch.messages cu.message_deletes }
  let ch := applyDeleteBefore now ch cu.delete_before
  let ch := { ch with messages := applyAppendLeft ch.messages cu.message_append_left }
  let ch := { ch with messages := applyNewMessages ch.messages cu.new_messages }
  let ch := if cu.new_messages.isEmpty then ch
    else { ch with last_activity := maxList (cu.new_messages.map (·.date)) }
  let ch := applyNewSummaries ch cu.new_summaries
  applyMetaAgain ch cu

/-- The per-channel body of the reducer loop, steps 1.5 through 8 in source order. -/
def applyChannelUpdate (now : Date) (ch : Channel) (cu : InternalChannelUpdates) :
    Except String Channel :=
  match applyMsgUpdates (applyMeta ch cu).messages cu.message_updates with
  | .error e => .error e
  | .ok msgs => .ok (applyChannelRest now { applyMeta ch cu with messages := msgs } cu)

/-- The channel loop of the reducer: each channel is created on demand and
its updates are applied; any raise aborts the whole application. -/
def applyChannelList (now : Date) : List (String × Channel) →
    List (String × InternalChannelUpdates) → Except String (List (String × Channel))
  | chans, [] => .ok chans
  | chans, (cid, cu) :: rest => do
    let ch := (lookupD chans cid).getD (defaultChannel cid now)
    let ch' ← applyChannelUpdate now ch cu
    applyChannelList now (dictSet chans cid ch') rest

-- ===================== tool call location =====================

def get_current_channel (now : Date) (h : History) : Channel :=
  match h.current_channel with
  | none => { defaultChannel "unregistered" now with name := "Unregistered Channel" }
  | some cid =>
    match lookupD h.channels cid with
    | some ch => ch
    | none => defaultChannel cid now

abbrev LocateResults := List (String × Option (String × Nat))

def scanOneMessage (cid : String) (idx : Nat) (m : StructuredMessage)
    (st : List String × LocateResults) : List String × LocateResults :=
  match m with
  | .ai am =>
    if am.tool_calls.isEmpty then st
    else
      am.internal_tool_messages.foldl
        (fun st p =>
          if st.1.contains p.1 then (st.1.erase p.1, dictSet st.2 p.1 (some (cid, idx)))
          else st)
        st
  | _ => st

def pickNext (chans : List (String × Channel)) (checked : List String) : Option Channel :=
  chans.foldl
    (fun acc p =>
      if checked.contains p.1 then acc
      else
        match acc with
        | none => some p.2
        | some cur => if cur.last_activity < p.2.last_activity then some p.2 else some cur)
    none

def locateLoop (chans : List (String × Channel)) :
    Nat → Option Channel → List String → LocateResults → List String → LocateResults
  | 0, _, _, results, _ => results
  | _ + 1, none, _, results, _ => results
  | fuel + 1, some cur, queue, results, checked =>
    let checked := checked ++ [cur.id]
    let st := cur.messages.enum.foldl
      (fun st p => scanOneMessage cur.id p.1 p.2 st) (queue, results)
    let next := if st.1.isEmpty then none else pickNext chans checked
    locateLoop chans fuel next st.1 st.2 checked

def locate_tool_calls (now : Date) (h : History) (ids : List String) : LocateResults :=
  locateLoop h.channels (h.channels.length + 1) (some (get_current_channel now h))
    ids (ids.map (fun i => (i, none))) []

-- ===================== tool updates (step 9 of the reducer) =====================

/-- Python truthiness filter on the optional content passed to set_status. -/
def contentOrNone : Option String → Option String
  | some c => if c = "" then none else some c
  | none => none

def applyOneToolUpdate (now : Date) (chans : List (String × Channel))
    (positions : LocateResults) (tu : InternalToolMessage) :
    Except String (List (String × Channel)) :=
  match lookupD positions tu.tool_call_id with
  | some (some (cid, idx)) =>
    match lookupD chans cid with
    | none => .error "Channel not found for tool update."
    | some ch =>
      match ch.messages.get? idx with
      | none => .error "Message index not found for tool update."
      | some (.ai am) =>
        match lookupD am.internal_tool_messages tu.tool_call_id with
        | none => .error "Tool message not found on AIMessage."
        | some itm =>
          let itm := itm.set_status tu.internal_status (contentOrNone tu.content)
          let am := { am with
            internal_tool_messages := dictSet am.internal_tool_messages tu.tool_call_id itm }
          let msgs := ch.messages.set idx (.ai am)
          let msgs :=
            if idx + 1 < msgs.length then
              let temp : SystemMessage_ :=
                { content := "#toolupdated#" ++ tu.tool_call_id, date := now, lifespan := some 1 }
              let temp :=
                match msgs.getLast? with
                | some lastm =>
                  if temp.date < lastm.date then { temp with date := lastm.date } else temp
                | none => temp
              msgs ++ [StructuredMessage.system temp]
            else msgs
          .ok (dictSet chans cid { ch with messages := msgs })
      | some _ => .error "Located message is not an AIMessage_"
  | _ => .ok chans

def applyToolUpdates (now : Date) (h : History) (tus : List InternalToolMessage) :
    Except String History :=
  if tus.isEmpty then .ok h
  else do
    let positions := locate_tool_calls now h (tus.map (·.tool_call_id))
    let chans ← tus.foldlM (fun chans tu => applyOneToolUpdate now chans positions tu) h.channels
    .ok { h with channels := chans }

/-- The InternalUpdates branch of history_reducer (the only branch the
modelled claims exercise): channel updates, then current_channel, then
tool updates.  The source deep-copies the left history first, so on a raise
the caller still observes the unmodified input. -/
def history_reducer (now : Date) (left : History) (right : InternalUpdates) :
    Except String History := do
  let chans ← applyChannelList now left.channels right.channel_updates
  let cc := match right.current_channel with
    | some c => some c
    | none => left.current_channel
  applyToolUpdates now { current_channel := cc, channels := chans } right.tool_updates

/-- The state the caller observes after passing an InternalUpdates through
the reducer: the returned history on success, the unchanged input on a raise
(the source mutates only a deep copy). -/
def applyOrKeep (now : Date) (left : History) (right : InternalUpdates) : History :=
  match history_reducer now left right with
  | .ok h => h
  | .error _ => left

-- ===================== MCP (graphs/_mcp.py) =====================

/-- rouftools.ToolMessage as used by the MCP layer. -/
structure RTToolMessage where
  tool_call_id : String
  status : String := "success"
  content : String := ""
deriving DecidableEq, Repr

structure MCPRequest where
  tool_call : ToolCall
  created_at : Int := 0
deriving DecidableEq, Repr

structure MCPResponse where
  tool_message : RTToolMessage
  response_time : Int
  updates : Option InternalUpdates := none
  status : ToolCallStatus := .processing
deriving DecidableEq, Repr

/-- The pure state of an MCPThread: the keys of pending_requests and the
terminal_responses list. -/
structure MCPThreadState where
  pending : List MCPRequest := []
  terminal : List MCPResponse := []
deriving DecidableEq, Repr

/-- The processing placeholder that current_responses synthesizes for each
still-pending request. -/
def synthesizedResponse (now : Int) (req : MCPRequest) : MCPResponse :=
  let tm : RTToolMessage :=
    { tool_call_id := req.tool_call.id,
      status := "success",
      content := "Tool is being executed on the MCP server, this message will be updated once done." }
  { tool_message := tm,
    response_time := now - req.created_at,
    updates := none,
    status := .processing }

/-- MCPThread.current_responses: drain the terminal responses, keep the
pending set, and append one synthesized processing response per pending
request.  `now` stands for time.monotonic(). -/
def current_responses (now : Int) (s : MCPThreadState) : List MCPResponse × MCPThreadState :=
  (s.terminal ++ s.pending.map (synthesizedResponse now),
   { pending := s.pending, terminal := [] })

-- ===================== History.generate_updates_from_mcp_responses =====================

/-- History.generate_updates_from_mcp_responses.  The source mutates the
ToolState of the located message in place on the History (returned here as
the first component) and returns an InternalUpdates.  Its cached_messages
dict is declared but never written, which the model reproduces: the fold
threads an always-empty cache, and the registration loop that would emit
positional message_updates iterates over it. -/
def generate_updates_from_mcp_responses (now : Date) (h : History)
    (responses : List MCPResponse) : Except String (History × InternalUpdates) := do
  let tool_call_ids := responses.map (·.tool_message.tool_call_id)
  let update_locations := locate_tool_calls now h tool_call_ids
  let init : History × InternalUpdates × List ((String × Nat) × StructuredMessage) :=
    (h, {}, [])
  let st ← responses.foldlM
    (fun (st : History × InternalUpdates × List ((String × Nat) × StructuredMessage)) resp => do
      let (h, updates, cached) := st
      match lookupD update_locations resp.tool_message.tool_call_id with
      | some (some (cid, idx)) =>
        let message ←
          match lookupD cached (cid, idx) with
          | some m => pure m
          | none =>
            match lookupD h.channels cid with
            | none => .error "Channel not found"
            | some ch =>
              match ch.messages.get? idx with
              | none => .error "Message index not found"
              | some m => pure m
        match message with
        | .ai am =>
          match lookupD am.internal_tool_messages resp.tool_message.tool_call_id with
          | none => .error "Tool message not found on AIMessage"
          | some itm =>
            let itm := itm.set_status resp.status (some resp.tool_message.content)
            let am := { am with
              internal_tool_messages :=
                dictSet am.internal_tool_messages resp.tool_message.tool_call_id itm }
            match lookupD h.channels cid with
            | none => .error "Channel not found"
            | some ch =>
              let h := { h with
                channels := dictSet h.channels cid
                  { ch with messages := ch.messages.set idx (.ai am) } }
              let updates :=
                if idx + 1 < ch.messages.length then
                  let cu := (lookupD updates.channel_updates cid).getD {}
                  let temp : SystemMessage_ :=
                    { content := "#toolupdated#" ++ resp.tool_message.tool_call_id,
                      date := now, lifespan := some 1 }
                  { updates with
                    channel_updates := dictSet updates.channel_updates cid
                      { cu with new_messages := cu.new_messages ++ [.system temp] } }
                else updates
              pure (h, updates, cached)
        | _ => .error "Located message is not an AIMessage_"
      | _ => .error "Could not find location for tool call")
    init
  let (h, updates, cached) := st
  let updates := cached.foldl
    (fun (u : InternalUpdates) (p : (String × Nat) × StructuredMessage) =>
      let cu := (lookupD u.channel_updates p.1.1).getD {}
      { u with
        channel_updates := dictSet u.channel_updates p.1.1
          { cu with message_updates := dictSet cu.message_updates p.1.2 p.2 } })
    updates
  let updates := responses.foldl
    (fun u r =>
      match r.updates with
      | some ru => internal_updates_reducer u ru
      | none => u)
    updates
  .ok (h, updates)

-- ===================== formatting (graphs/_formatting.py) =====================

inductive AssembleItem where
  | msg : StructuredMessage → AssembleItem
  | summ : Summary → AssembleItem
deriving DecidableEq, Repr

/-- _count_message_size: summary length for summaries; for messages the
(non-empty, when enabled) message summary length else the content length,
plus the total tool-state content length on AI messages. -/
def _count_message_size (use_summary : Bool) : AssembleItem → Nat
  | .summ s => s.summary.length
  | .msg m =>
    let base :=
      match m.summary with
      | some s => if s ≠ "" && use_summary then s.length else m.content.length
      | none => m.content.length
    match m with
    | .ai am =>
      if am.internal_tool_messages.isEmpty then base
      else base + (am.internal_tool_messages.map (fun p => (p.2.content.getD "").length)).sum
    | _ => base

def itemStart : AssembleItem → Date
  | .summ s => s.min_date
  | .msg m => m.date

def itemEnd : AssembleItem → Date
  | .summ s => s.max_date
  | .msg m => m.date

/-- Whether an assembled item falls inside the time frame of a candidate
summary, as tested by the removal loop of assemble_messages. -/
def itemSpanMatch (c : Summary) (it : AssembleItem) : Bool :=
  c.min_date ≤ itemEnd it && itemEnd it ≤ c.max_date

def itemSizeI (use_summary : Bool) (it : AssembleItem) : Int :=
  (_count_message_size use_summary it : Int)

/-- The in-place removal plus insert of the backtracking substitution:
remove every assembled item inside the candidate frame and insert the
candidate at the first removed position; raises when nothing was removed. -/
def doSubstitution (use_summary : Bool) (c : Summary) (assembled : List AssembleItem)
    (count : Int) : Except String (List AssembleItem × Int) :=
  match assembled.findIdx? (itemSpanMatch c) with
  | none => .error "Could not find index, should never happen"
  | some i0 =>
    let removed := assembled.filter (itemSpanMatch c)
    let kept := (assembled.drop i0).filter (fun it => !(itemSpanMatch c it))
    let newAssembled := assembled.take i0 ++ [AssembleItem.summ c] ++ kept
    let newCount := count - (removed.map (itemSizeI use_summary)).sum
      + itemSizeI use_summary (.summ c)
    .ok (newAssembled, newCount)

/-- One pass of the backtracking loop over a snapshot of reversed(assembled)
taken at pass start; the assembled list and count evolve as substitutions
are found. -/
def backtrackPass (use_summary : Bool) (summaries : List (Date × List Summary)) :
    List AssembleItem → List AssembleItem × Int × Bool →
    Except String (List AssembleItem × Int × Bool)
  | [], st => .ok st
  | item :: rest, (assembled, count, found) =>
    match lookupD summaries (itemEnd item) with
    | none => backtrackPass use_summary summaries rest (assembled, count, found)
    | some cands =>
      match cands.find? (fun c => decide (c.min_date < itemStart item)) with
      | none => backtrackPass use_summary summaries rest (assembled, count, found)
      | some c => do
        let p ← doSubstitution use_summary c assembled count
        backtrackPass use_summary summaries rest (p.1, p.2, true)

/-- The `while character_count > max_size and found_something` loop. -/
def backtrackWhile (use_summary : Bool) (summaries : List (Date × List Summary))
    (max_size : Int) : Nat → List AssembleItem → Int → Except String (List AssembleItem × Int)
  | 0, _, _ => .error "backtrack fuel exhausted"
  | fuel + 1, assembled, count =>
    if max_size < count then do
      let st ← backtrackPass use_summary summaries assembled.reverse (assembled, count, false)
      if st.2.2 then backtrackWhile use_summary summaries max_size fuel st.1 st.2.1
      else .ok (st.1, st.2.1)
    else .ok (assembled, count)

structure AsmState where
  assembled : List AssembleItem := []
  count : Int := 0
  min_message : Nat := 0
  min_date : Option Date := none
deriving Repr

/-- The item picked by one inclusion step: the summary keyed at the message
date (when the minimum-message quota is met) or the message itself. -/
def assembleIncludeItem (use_summary : Bool) (summaries : List (Date × List Summary))
    (summary_rank_threshold : Nat) (m : StructuredMessage) (st : AsmState) :
    Except String AsmState :=
  if st.min_message = 0 && (lookupD summaries m.date).isSome then
    match lookupD summaries m.date with
    | some cands =>
      match cands.get? (Nat.min summary_rank_threshold (cands.length - 1)) with
      | some s =>
        pure { st with
          assembled := st.assembled ++ [AssembleItem.summ s],
          count := st.count + itemSizeI use_summary (.summ s) }
      | none => .error "empty candidate summary list"
    | none => .error "unreachable"
  else
    pure { st with
      assembled := st.assembled ++ [AssembleItem.msg m],
      count := st.count + itemSizeI use_summary (.msg m),
      min_message := st.min_message - 1 }

/-- The inclusion part of one iteration of the outer assemble loop: pick the
summary keyed at the message date (when the quota is met) or the message
itself, run the backtracking loop, and pop the last item if the budget is
still exceeded. -/
def assembleInclude (use_summary : Bool) (summaries : List (Date × List Summary))
    (max_size : Int) (summary_rank_threshold : Nat) (fuel : Nat)
    (m : StructuredMessage) (st : AsmState) : Except String AsmState := do
  let st ← assembleIncludeItem use_summary summaries summary_rank_threshold m st
  let p ← backtrackWhile use_summary summaries max_size fuel st.assembled st.count
  let st := { st with assembled := p.1, count := p.2 }
  if max_size < st.count then
    match st.assembled.getLast? with
    | some _ => pure { st with assembled := st.assembled.dropLast }
    | none => .error "pop from empty list"
  else
    pure st

/-- The outer loop of assemble_messages over the reversed message list. -/
def assembleLoop (use_summary : Bool) (summaries : List (Date × List Summary))
    (max_size : Int) (summary_rank_threshold : Nat) (max_message : Option Nat)
    (max_date : Option Date) (fuel : Nat) :
    List StructuredMessage → AsmState → Except String (List AssembleItem)
  | [], st => .ok st.assembled
  | m :: rest, st =>
    if (match max_date with | some d => decide (d ≤ m.date) | none => false) then
      assembleLoop use_summary summaries max_size summary_rank_threshold max_message
        max_date fuel rest st
    else if (match st.min_date with | some md => decide (m.date < md) | none => false) then
      if st.min_message ≠ 0 then do
        let st := { st with min_date := some m.date }
        let st ← assembleInclude use_summary summaries max_size summary_rank_threshold
          fuel m st
        assembleLoop use_summary summaries max_size summary_rank_threshold max_message
          max_date fuel rest st
      else
        .ok st.assembled
    else if (match max_message with
             | some mm => !(mm = 0) && mm ≤ st.assembled.length
             | none => false) then
      .ok st.assembled
    else do
      let st ← assembleInclude use_summary summaries max_size summary_rank_threshold fuel m st
      assembleLoop use_summary summaries max_size summary_rank_threshold max_message
        max_date fuel rest st

/-- A fuel bound large enough for every run the claims exercise; the
assemble theorems hold for every fuel value, by loop invariant. -/
def assembleFuel (messages : List StructuredMessage)
    (summaries : List (Date × List Summary)) : Nat :=
  (messages.length + (summaries.map (fun p => p.2.length)).sum + 1) * 4 + 16

/-- assemble_messages(messages, summaries, summary_rank_threshold,
use_message_summaries, max_size, min_message, max_message, min_date,
max_date), returning the chronologically ordered mixed list. -/
def assemble_messages (messages : List StructuredMessage)
    (summaries : List (Date × List Summary)) (summary_rank_threshold : Nat)
    (use_message_summaries : Bool) (max_size : Int) (min_message : Nat)
    (max_message : Option Nat) (min_date : Option Date) (max_date : Option Date) :
    Except String (List AssembleItem) := do
  let res ← assembleLoop use_message_summaries summaries max_size summary_rank_threshold
    max_message max_date (assembleFuel messages summaries) messages.reverse
    { assembled := [], count := 0, min_message := min_message, min_date := min_date }
  .ok res.reverse

-- ===================== basic lemmas about the dict model =====================

theorem lookupD_dictSet_self {κ α : Type} [DecidableEq κ] (l : List (κ × α)) (k : κ) (v : α) :
    lookupD (dictSet l k v) k = some v := by
  induction l with
  | nil => simp [dictSet, lookupD]
  | cons p rest ih =>
    by_cases h : p.1 = k
    · simp [dictSet, h, lookupD]
    · simp only [dictSet]
      rw [show (p.1, p.2) = p from rfl]
      simp only [if_neg h]
      simp [lookupD, h, ih]

theorem lookupD_dictSet_ne {κ α : Type} [DecidableEq κ] (l : List (κ × α)) (k k' : κ) (v : α)
    (h : k ≠ k') : lookupD (dictSet l k v) k' = lookupD l k' := by
  induction l with
  | nil => simp [dictSet, lookupD, h]
  | cons p rest ih =>
    by_cases hp : p.1 = k
    · simp only [dictSet]
      rw [show (p.1, p.2) = p from rfl]
      simp only [if_pos hp]
      simp [lookupD, h, hp]
    · simp only [dictSet]
      rw [show (p.1, p.2) = p from rfl]
      simp only [if_neg hp]
      simp [lookupD, ih]

theorem lookupD_eq_none_of_not_mem_keys {κ α : Type} [DecidableEq κ] :
    ∀ (l : List (κ × α)) (k : κ), k ∉ dictKeys l → lookupD l k = none
  | [], _, _ => rfl
  | (a, b) :: rest, k, h => by
    have h1 : ¬(a = k) := fun hk => h (by simp [dictKeys, hk])
    have h2 : k ∉ dictKeys rest := by
      intro hk
      refine h ?_
      simp only [dictKeys, List.map_cons, List.mem_cons]
      exact Or.inr hk
    simp [lookupD, h1, lookupD_eq_none_of_not_mem_keys rest k h2]

theorem lookupD_mem {κ α : Type} [DecidableEq κ] :
    ∀ (l : List (κ × α)) (k : κ) (v : α),
      (dictKeys l).Nodup → (k, v) ∈ l → lookupD l k = some v
  | [], _, _, _, hmem => absurd hmem (by simp)
  | (a, b) :: rest, k, v, hnodup, hmem => by
    simp only [dictKeys, List.map_cons, List.nodup_cons] at hnodup
    rcases List.mem_cons.mp hmem with heq | htail
    · cases heq
      simp [lookupD]
    · have hk : ¬(a = k) := by
        intro hk
        subst hk
        exact hnodup.1 (List.mem_map_of_mem Prod.fst htail)
      simp only [lookupD, if_neg hk]
      exact lookupD_mem rest k v hnodup.2 htail

-- ===================== claim C8 =====================

/-- Claim C8: current_responses returns every terminal response accumulated in
the thread plus one synthesized processing response per still-pending request,
removes the terminal responses, and a second immediate call on the resulting
state (no task completing in between) returns only the synthesized processing
responses of the still-pending requests. -/
theorem c8_current_responses_drains_terminal (now now2 : Int) (s : MCPThreadState) :
    (current_responses now s).1 = s.terminal ++ s.pending.map (synthesizedResponse now)
    ∧ (current_responses now s).2.terminal = []
    ∧ (current_responses now s).2.pending = s.pending
    ∧ (current_responses now2 (current_responses now s).2).1
        = s.pending.map (synthesizedResponse now2) := by
  refine ⟨rfl, rfl, rfl, ?_⟩
  simp [current_responses]

-- ===================== claim C10 =====================

/-- Claim C10: every synthesized response produced by current_responses for a
still-pending request carries tool_message.status = "success" even though its
own status field is processing. -/
theorem c10_synthesized_response_success (now : Int) (s : MCPThreadState)
    (req : MCPRequest) (h : req ∈ s.pending) :
    synthesizedResponse now req ∈ (current_responses now s).1
    ∧ (synthesizedResponse now req).tool_message.status = "success"
    ∧ (synthesizedResponse now req).status = ToolCallStatus.processing := by
  refine ⟨?_, rfl, rfl⟩
  simp only [current_responses, List.mem_append]
  exact Or.inr (List.mem_map_of_mem _ h)

/-- Witness for C10 at a concrete thread state. -/
theorem c10_synthesized_response_success_witness :
    let req : MCPRequest := { tool_call := { id := "t9", name := "f" }, created_at := 2 }
    let s : MCPThreadState := { pending := [req], terminal := [] }
    req ∈ s.pending
    ∧ (synthesizedResponse 7 req ∈ (current_responses 7 s).1
       ∧ (synthesizedResponse 7 req).tool_message.status = "success"
       ∧ (synthesizedResponse 7 req).status = ToolCallStatus.processing) :=
  ⟨by decide, c10_synthesized_response_success 7 _ _ (by decide)⟩

-- ===================== claim C2 =====================

/-- An Agent message hosting one tool call, used to exhibit the behavior of
generate_updates_from_mcp_responses. -/
def c2AiMessage : AIMessage_ :=
  { content := "calling", date := 10,
    tool_calls := [{ id := "t1", name := "x" }],
    internal_tool_messages := [("t1",
      { tool_call_id := "t1", internal_status := .unconfirmed,
        status := .error, content := some "w" })] }

def c2Hist : History :=
  { current_channel := some "c1",
    channels := [("c1",
      { defaultChannel "c1" 0 with messages := [.ai c2AiMessage], last_activity := 10 })] }

def c2Resp : MCPResponse :=
  { tool_message := { tool_call_id := "t1", status := "success", content := "ok" },
    response_time := 1, updates := none, status := .completed }

/-- The history after the call: the located ToolState was mutated in place. -/
def c2HistAfter : History :=
  { current_channel := some "c1",
    channels := [("c1",
      { defaultChannel "c1" 0 with
        messages := [.ai { c2AiMessage with
          internal_tool_messages := [("t1",
            { tool_call_id := "t1", internal_status := .completed,
              status := .success, content := some "ok" })] }],
        last_activity := 10 })] }

/-- Claim C2 (code bug): for a located MCP response the source is meant to emit
a positional message_updates entry at the hosting message location, but its
cached_messages dict is never populated, so the returned InternalUpdates is
empty: the ToolState change survives only as an in-place mutation of the
input History. -/
theorem c2_no_positional_update_emitted :
    generate_updates_from_mcp_responses 50 c2Hist [c2Resp]
      = .ok (c2HistAfter,
        { channel_updates := [], current_channel := none, tool_updates := [] }) := by
  rfl

-- ===================== claim C3 =====================

/-- A helper step for C3: a tool update whose id the locator could not find
is skipped by the reducer without error. -/
theorem applyOneToolUpdate_miss (now : Date) (chans : List (String × Channel))
    (positions : LocateResults) (tu : InternalToolMessage)
    (h1 : lookupD positions tu.tool_call_id = some none) :
    applyOneToolUpdate now chans positions tu = .ok chans := by
  unfold applyOneToolUpdate
  rw [h1]

def c3Resp : MCPResponse :=
  { tool_message := { tool_call_id := "missing", status := "success", content := "ok" },
    response_time := 1, updates := none, status := .completed }

/-- Counterexample to C3 as stated: generate_updates_from_mcp_responses does
NOT skip an unlocatable response; it raises. -/
theorem c3_counterexample_generate_raises :
    generate_updates_from_mcp_responses 5 {} [c3Resp]
      = .error "Could not find location for tool call" := by
  rfl

/-- Claim C3 as amended: a tool_updates entry whose tool_call_id is located
nowhere is silently skipped by the history reducer, which returns normally;
generate_updates_from_mcp_responses however fails with an error on an
unlocatable response. -/
theorem c3_amended_miss_skipped_by_reducer (now : Date) (h : History)
    (tu : InternalToolMessage) (r : MCPResponse)
    (h1 : lookupD (locate_tool_calls now h [tu.tool_call_id]) tu.tool_call_id = some none)
    (h2 : lookupD (locate_tool_calls now h [r.tool_message.tool_call_id])
            r.tool_message.tool_call_id = some none) :
    history_reducer now h
      { channel_updates := [], current_channel := none, tool_updates := [tu] } = .ok h
    ∧ generate_updates_from_mcp_responses now h [r]
        = .error "Could not find location for tool call" := by
  constructor
  · show applyToolUpdates now (History.mk h.current_channel h.channels) [tu] = .ok h
    unfold applyToolUpdates
    simp only [List.isEmpty_cons, Bool.false_eq_true, if_false, List.foldlM]
    have h1' : lookupD (locate_tool_calls now (History.mk h.current_channel h.channels)
        (List.map (fun x => x.tool_call_id) [tu])) tu.tool_call_id = some none := h1
    rw [applyOneToolUpdate_miss now h.channels _ tu h1']
    rfl
  · unfold generate_updates_from_mcp_responses
    simp only [List.map_cons, List.map_nil, List.foldlM]
    have h2' : lookupD (locate_tool_calls now h [r.tool_message.tool_call_id])
        r.tool_message.tool_call_id = some none := h2
    rw [h2']
    rfl

-- ===================== channel loop lemmas =====================

theorem applyMsgUpdates_oob :
    ∀ (l : List (Nat × StructuredMessage)) (msgs : List StructuredMessage)
      (i : Nat) (m : StructuredMessage), (i, m) ∈ l → msgs.length ≤ i →
      applyMsgUpdates msgs l = .error "Message ID out of bounds for channel messages."
  | [], _, _, _, hmem, _ => absurd hmem (by simp)
  | (j, mj) :: rest, msgs, i, m, hmem, hlen => by
    by_cases hj : j < msgs.length
    · simp only [applyMsgUpdates, dif_pos hj]
      rcases List.mem_cons.mp hmem with heq | htail
      · exfalso
        have hij : i = j := congrArg Prod.fst heq
        exact absurd hj (hij ▸ Nat.not_lt.mpr hlen)
      · exact applyMsgUpdates_oob rest _ i m htail (by simpa using hlen)
    · simp [applyMsgUpdates, hj]

theorem applyMsgUpdates_error_eq :
    ∀ (l : List (Nat × StructuredMessage)) (msgs : List StructuredMessage) (e : String),
      applyMsgUpdates msgs l = .error e →
      e = "Message ID out of bounds for channel messages."
  | [], msgs, e, hk => by cases hk
  | (j, mj) :: rest, msgs, e, hk => by
    by_cases hj : j < msgs.length
    · simp only [applyMsgUpdates, dif_pos hj] at hk
      exact applyMsgUpdates_error_eq rest _ e hk
    · simp only [applyMsgUpdates, dif_neg hj] at hk
      cases hk
      rfl

theorem applyChannelUpdate_oob (now : Date) (ch : Channel) (cu : InternalChannelUpdates)
    (i : Nat) (m : StructuredMessage) (hmem : (i, m) ∈ cu.message_updates)
    (hlen : ch.messages.length ≤ i) :
    applyChannelUpdate now ch cu = .error "Message ID out of bounds for channel messages." := by
  unfold applyChannelUpdate
  rw [show (applyMeta ch cu).messages = ch.messages from rfl,
    applyMsgUpdates_oob cu.message_updates ch.messages i m hmem hlen]

theorem applyChannelUpdate_error_eq (now : Date) (ch : Channel)
    (cu : InternalChannelUpdates) (e : String)
    (hk : applyChannelUpdate now ch cu = .error e) :
    e = "Message ID out of bounds for channel messages." := by
  unfold applyChannelUpdate at hk
  cases hm : applyMsgUpdates (applyMeta ch cu).messages cu.message_updates with
  | error e2 =>
    rw [hm] at hk
    cases hk
    exact applyMsgUpdates_error_eq _ _ _ hm
  | ok msgs =>
    rw [hm] at hk
    cases hk

theorem applyChannelList_error_eq (now : Date) :
    ∀ (l : List (String × InternalChannelUpdates)) (chans : List (String × Channel))
      (e : String), applyChannelList now chans l = .error e →
      e = "Message ID out of bounds for channel messages."
  | [], chans, e, hk => by cases hk
  | (k, cu) :: rest, chans, e, hk => by
    simp only [applyChannelList] at hk
    cases hu : applyChannelUpdate now ((lookupD chans k).getD (defaultChannel k now)) cu with
    | error e2 =>
      rw [hu] at hk
      cases hk
      exact applyChannelUpdate_error_eq now _ cu e hu
    | ok ch' =>
      rw [hu] at hk
      exact applyChannelList_error_eq now rest _ e hk

theorem applyChannelList_append (now : Date) :
    ∀ (l1 l2 : List (String × InternalChannelUpdates)) (chans : List (String × Channel)),
      applyChannelList now chans (l1 ++ l2)
        = (applyChannelList now chans l1).bind (fun c => applyChannelList now c l2)
  | [], l2, chans => rfl
  | (cid, cu) :: t1, l2, chans => by
    simp only [List.cons_append, applyChannelList]
    cases hu : applyChannelUpdate now ((lookupD chans cid).getD (defaultChannel cid now)) cu with
    | error e => rfl
    | ok ch' => exact applyChannelList_append now t1 l2 _

theorem applyChannelList_frame (now : Date) :
    ∀ (l : List (String × InternalChannelUpdates)) (chans chans' : List (String × Channel))
      (cid : String), cid ∉ dictKeys l →
      applyChannelList now chans l = .ok chans' →
      lookupD chans' cid = lookupD chans cid
  | [], chans, chans', cid, _, hok => by
    cases hok
    rfl
  | (k, cu) :: rest, chans, chans', cid, hnk, hok => by
    have hkne : k ≠ cid := by
      intro he
      exact hnk (by simp [dictKeys, he])
    have hcidrest : cid ∉ dictKeys rest := by
      intro hm
      refine hnk ?_
      simp only [dictKeys, List.map_cons, List.mem_cons]
      exact Or.inr hm
    simp only [applyChannelList] at hok
    cases hu : applyChannelUpdate now ((lookupD chans k).getD (defaultChannel k now)) cu with
    | error e =>
      rw [hu] at hok
      cases hok
    | ok ch' =>
      rw [hu] at hok
      have := applyChannelList_frame now rest _ chans' cid hcidrest hok
      rw [this, lookupD_dictSet_ne _ k cid ch' hkne]

-- ===================== claim C5 =====================

/-- Claim C5: a positional message_updates entry whose index is at least the
length of the addressed channel messages makes the reducer fail with the
index-out-of-range error, and the caller still observes the unchanged input
History (the source only ever mutates a deep copy). -/
theorem c5_oob_positional_update_fails (now : Date) (h : History) (u : InternalUpdates)
    (cid : String) (cu : InternalChannelUpdates) (i : Nat) (m : StructuredMessage)
    (hnodup : (dictKeys u.channel_updates).Nodup)
    (hmem : (cid, cu) ∈ u.channel_updates)
    (hidx : (i, m) ∈ cu.message_updates)
    (hlen : (match lookupD h.channels cid with
             | some ch => ch.messages.length
             | none => 0) ≤ i) :
    history_reducer now h u = .error "Message ID out of bounds for channel messages."
    ∧ applyOrKeep now h u = h := by
  have hmain : applyChannelList now h.channels u.channel_updates
      = .error "Message ID out of bounds for channel messages." := by
    obtain ⟨s, t, hst⟩ := List.append_of_mem hmem
    have hnotin : cid ∉ dictKeys s := by
      rw [hst] at hnodup
      simp only [dictKeys, List.map_append, List.map_cons] at hnodup
      have hd := (List.nodup_append.mp hnodup).2.2
      intro hmm
      exact hd hmm (List.mem_cons_self _ _)
    rw [hst, applyChannelList_append]
    cases hpre : applyChannelList now h.channels s with
    | error e =>
      have he := applyChannelList_error_eq now s h.channels e hpre
      subst he
      rfl
    | ok chans1 =>
      have hlook := applyChannelList_frame now s h.channels chans1 cid hnotin hpre
      have hchlen : ((lookupD chans1 cid).getD (defaultChannel cid now)).messages.length ≤ i := by
        rw [hlook]
        cases hc : lookupD h.channels cid with
        | none => exact Nat.zero_le i
        | some ch =>
          rw [hc] at hlen
          simpa using hlen
      show applyChannelList now chans1 ((cid, cu) :: t) = .error _
      simp only [applyChannelList]
      rw [applyChannelUpdate_oob now _ cu i m hidx hchlen]
      rfl
  have hred : history_reducer now h u
      = .error "Message ID out of bounds for channel messages." := by
    unfold history_reducer
    rw [hmain]
    rfl
  refine ⟨hred, ?_⟩
  unfold applyOrKeep
  rw [hred]

def c5Hist : History :=
  { current_channel := some "c",
    channels := [("c",
      { defaultChannel "c" 0 with
        messages := [.human { content := "hi", date := 3 }],
        last_activity := 3 })] }

def c5Cu : InternalChannelUpdates :=
  { message_updates := [(5, .human { content := "new", date := 9 })] }

def c5U : InternalUpdates := { channel_updates := [("c", c5Cu)] }

/-- Witness for C5: a channel with one message and an update at index 5. -/
theorem c5_oob_positional_update_fails_witness :
    (dictKeys c5U.channel_updates).Nodup
    ∧ ("c", c5Cu) ∈ c5U.channel_updates
    ∧ ((5 : Nat), StructuredMessage.human { content := "new", date := 9 }) ∈ c5Cu.message_updates
    ∧ ((match lookupD c5Hist.channels "c" with
        | some ch => ch.messages.length
        | none => 0) ≤ 5)
    ∧ (history_reducer 4 c5Hist c5U = .error "Message ID out of bounds for channel messages."
       ∧ applyOrKeep 4 c5Hist c5U = c5Hist) :=
  ⟨by decide, by decide, by decide, by decide,
   c5_oob_positional_update_fails 4 c5Hist c5U "c" c5Cu 5
     (.human { content := "new", date := 9 })
     (by decide) (by decide) (by decide) (by decide)⟩

def c3Tu : InternalToolMessage :=
  { tool_call_id := "missing2", internal_status := .completed, content := some "x" }

/-- Witness for the amended C3 on an empty history. -/
theorem c3_amended_miss_skipped_by_reducer_witness :
    lookupD (locate_tool_calls 5 {} [c3Tu.tool_call_id]) c3Tu.tool_call_id = some none
    ∧ lookupD (locate_tool_calls 5 {} [c3Resp.tool_message.tool_call_id])
        c3Resp.tool_message.tool_call_id = some none
    ∧ (history_reducer 5 {}
        { channel_updates := [], current_channel := none, tool_updates := [c3Tu] } = .ok {}
       ∧ generate_updates_from_mcp_responses 5 {} [c3Resp]
           = .error "Could not find location for tool call") :=
  ⟨by decide, by decide,
   c3_amended_miss_skipped_by_reducer 5 {} c3Tu c3Resp (by decide) (by decide)⟩

-- ===================== last_activity lemmas (claim C1) =====================

theorem applyNewSummaries_last_activity (ch : Channel) (l : List Summary) :
    (applyNewSummaries ch l).last_activity = ch.last_activity := by
  unfold applyNewSummaries
  split <;> rfl

theorem applyChannelRest_last_activity (now : Date) (ch : Channel)
    (cu : InternalChannelUpdates) (hne : cu.new_messages ≠ []) :
    (applyChannelRest now ch cu).last_activity
      = maxList (cu.new_messages.map StructuredMessage.date) := by
  have hie : cu.new_messages.isEmpty = false := by
    cases hh : cu.new_messages with
    | nil => exact absurd hh hne
    | cons a l => rfl
  have h1 : ∀ x : Channel, (applyMetaAgain x cu).last_activity = x.last_activity :=
    fun _ => rfl
  unfold applyChannelRest
  rw [h1, applyNewSummaries_last_activity, hie]
  rfl

theorem applyChannelUpdate_last_activity (now : Date) (ch ch2 : Channel)
    (cu : InternalChannelUpdates) (hok : applyChannelUpdate now ch cu = .ok ch2)
    (hne : cu.new_messages ≠ []) :
    ch2.last_activity = maxList (cu.new_messages.map StructuredMessage.date) := by
  unfold applyChannelUpdate at hok
  cases hm : applyMsgUpdates (applyMeta ch cu).messages cu.message_updates with
  | error e =>
    rw [hm] at hok
    cases hok
  | ok msgs =>
    rw [hm] at hok
    cases hok
    exact applyChannelRest_last_activity now _ cu hne

theorem applyOneToolUpdate_la (now : Date) (chans chans' : List (String × Channel))
    (positions : LocateResults) (tu : InternalToolMessage)
    (hok : applyOneToolUpdate now chans positions tu = .ok chans') (k : String) :
    (lookupD chans' k).map Channel.last_activity
      = (lookupD chans k).map Channel.last_activity := by
  unfold applyOneToolUpdate at hok
  split at hok
  · rename_i cid idx h1
    split at hok
    · cases hok
    · rename_i ch h2
      split at hok
      · cases hok
      · rename_i am h3
        split at hok
        · cases hok
        · rename_i itm h4
          cases hok
          by_cases hk : cid = k
          · subst hk
            rw [lookupD_dictSet_self, h2]
            rfl
          · rw [lookupD_dictSet_ne _ _ _ _ hk]
      · cases hok
  · cases hok
    rfl

theorem toolUpdatesFold_la (now : Date) (positions : LocateResults) :
    ∀ (tus : List InternalToolMessage) (chans chans' : List (String × Channel)),
      List.foldlM (fun cs tu => applyOneToolUpdate now cs positions tu) chans tus
        = .ok chans' →
      ∀ k, (lookupD chans' k).map Channel.last_activity
            = (lookupD chans k).map Channel.last_activity
  | [], chans, chans', hok, k => by
    cases hok
    rfl
  | tu :: rest, chans, chans', hok, k => by
    rw [List.foldlM_cons] at hok
    cases h1 : applyOneToolUpdate now chans positions tu with
    | error e =>
      rw [h1] at hok
      cases hok
    | ok mid =>
      rw [h1] at hok
      have hok' : List.foldlM (fun cs tu => applyOneToolUpdate now cs positions tu)
          mid rest = .ok chans' := hok
      rw [toolUpdatesFold_la now positions rest mid chans' hok' k,
        applyOneToolUpdate_la now chans mid positions tu h1 k]

theorem applyToolUpdates_la (now : Date) (hh h' : History) (tus : List InternalToolMessage)
    (hok : applyToolUpdates now hh tus = .ok h') (k : String) :
    (lookupD h'.channels k).map Channel.last_activity
      = (lookupD hh.channels k).map Channel.last_activity := by
  unfold applyToolUpdates at hok
  by_cases he : tus.isEmpty
  · rw [if_pos he] at hok
    cases hok
    rfl
  · rw [if_neg he] at hok
    dsimp only at hok
    cases hf : List.foldlM
        (fun cs tu => applyOneToolUpdate now cs
          (locate_tool_calls now hh (List.map (fun x => x.tool_call_id) tus)) tu)
        hh.channels tus with
    | error e =>
      rw [hf] at hok
      cases hok
    | ok chans =>
      rw [hf] at hok
      cases hok
      exact toolUpdatesFold_la now _ tus hh.channels chans hf k

-- ===================== claim C1 =====================

def c1Hist : History :=
  { current_channel := none,
    channels := [("c",
      { defaultChannel "c" 0 with
        messages := [.human { content := "a", date := 10 },
                     .human { content := "b", date := 30 }],
        last_activity := 30 })] }

def c1Cu : InternalChannelUpdates :=
  { new_messages := [.human { content := "x", date := 20 }] }

def c1Upd : InternalUpdates := { channel_updates := [("c", c1Cu)] }

/-- Counterexample to C1 as stated: applying new_messages=[m at 20] to a
channel with messages at [10, 30] does re-sort to [10, 20, 30], but
last_activity becomes 20 (the maximum over the NEW messages only), not 30. -/
theorem c1_counterexample_last_activity :
    ((history_reducer 50 c1Hist c1Upd).toOption.bind
        (fun h => lookupD h.channels "c")).map
      (fun ch => (ch.messages.map StructuredMessage.date, ch.last_activity))
      = some ([10, 20, 30], 20)
    ∧ ((history_reducer 50 c1Hist c1Upd).toOption.bind
        (fun h => lookupD h.channels "c")).map (fun ch => ch.last_activity) ≠ some 30 := by
  constructor
  · rfl
  · decide

/-- Claim C1 as amended: after a reducer application whose update for a
channel has non-empty new_messages, that channel's last_activity equals the
maximum date among the NEW messages of the batch (not among all stored
messages). -/
theorem c1_amended_last_activity (now : Date) (h h' : History) (u : InternalUpdates)
    (cid : String) (cu : InternalChannelUpdates)
    (hnodup : (dictKeys u.channel_updates).Nodup)
    (hmem : (cid, cu) ∈ u.channel_updates)
    (hne : cu.new_messages ≠ [])
    (hok : history_reducer now h u = .ok h') :
    ∃ ch', lookupD h'.channels cid = some ch'
      ∧ ch'.last_activity = maxList (cu.new_messages.map StructuredMessage.date) := by
  unfold history_reducer at hok
  cases hcl : applyChannelList now h.channels u.channel_updates with
  | error e =>
    rw [hcl] at hok
    cases hok
  | ok chans1 =>
    rw [hcl] at hok
    obtain ⟨s, t, hst⟩ := List.append_of_mem hmem
    have hnodup2 := hst ▸ hnodup
    simp only [dictKeys, List.map_append, List.map_cons] at hnodup2
    have hnotint : cid ∉ dictKeys t := by
      have := ((List.nodup_append.mp hnodup2).2.1)
      exact (List.nodup_cons.mp this).1
    rw [hst, applyChannelList_append] at hcl
    cases hpre : applyChannelList now h.channels s with
    | error e =>
      rw [hpre] at hcl
      cases hcl
    | ok cpre =>
      rw [hpre] at hcl
      have hcl2 : applyChannelList now cpre ((cid, cu) :: t) = .ok chans1 := hcl
      simp only [applyChannelList] at hcl2
      cases hstep : applyChannelUpdate now
          ((lookupD cpre cid).getD (defaultChannel cid now)) cu with
      | error e =>
        rw [hstep] at hcl2
        cases hcl2
      | ok ch2 =>
        rw [hstep] at hcl2
        have hcl3 : applyChannelList now (dictSet cpre cid ch2) t = .ok chans1 := hcl2
        have hla2 := applyChannelUpdate_last_activity now _ ch2 cu hstep hne
        have hlook1 : lookupD chans1 cid = some ch2 := by
          rw [applyChannelList_frame now t _ chans1 cid hnotint hcl3, lookupD_dictSet_self]
        have hla3 := applyToolUpdates_la now _ h' u.tool_updates hok cid
        dsimp only at hla3
        rw [hlook1] at hla3
        obtain ⟨ch', hc1, hc2⟩ := Option.map_eq_some'.mp hla3
        exact ⟨ch', hc1, by rw [hc2]; exact hla2⟩

/-- Witness for the amended C1: the [10, 30] channel receiving a message at
20 ends with last_activity equal to the new-batch maximum, 20. -/
theorem c1_amended_last_activity_witness :
    (dictKeys c1Upd.channel_updates).Nodup
    ∧ ("c", c1Cu) ∈ c1Upd.channel_updates
    ∧ c1Cu.new_messages ≠ []
    ∧ (∃ hres, history_reducer 50 c1Hist c1Upd = .ok hres)
    ∧ (∃ ch', lookupD (applyOrKeep 50 c1Hist c1Upd).channels "c" = some ch'
        ∧ ch'.last_activity = maxList (c1Cu.new_messages.map StructuredMessage.date)) := by
  refine ⟨by decide, by decide, by decide, ⟨applyOrKeep 50 c1Hist c1Upd, by rfl⟩, ?_⟩
  exact c1_amended_last_activity 50 c1Hist (applyOrKeep 50 c1Hist c1Upd) c1Upd "c" c1Cu
    (by decide) (by decide) (by decide) (by rfl)

-- ===================== claim C7 =====================

/-- The message list the reducer produces when a tool update hits the Agent
message am (holding ToolState itm) at index idx of channel ch. -/
def toolUpdatedMessages (now : Date) (tu : InternalToolMessage) (ch : Channel)
    (am : AIMessage_) (itm : InternalToolMessage) (idx : Nat) : List StructuredMessage :=
  let itm2 := itm.set_status tu.internal_status (contentOrNone tu.content)
  let am2 : AIMessage_ := { am with
    internal_tool_messages := dictSet am.internal_tool_messages tu.tool_call_id itm2 }
  let msgs := ch.messages.set idx (.ai am2)
  if idx + 1 < msgs.length then
    let temp : SystemMessage_ :=
      { content := "#toolupdated#" ++ tu.tool_call_id, date := now, lifespan := some 1 }
    let temp :=
      match msgs.getLast? with
      | some lastm => if temp.date < lastm.date then { temp with date := lastm.date } else temp
      | none => temp
    msgs ++ [StructuredMessage.system temp]
  else msgs

theorem applyOneToolUpdate_hit (now : Date) (chans : List (String × Channel))
    (positions : LocateResults) (tu : InternalToolMessage) (cid : String) (idx : Nat)
    (ch : Channel) (am : AIMessage_) (itm : InternalToolMessage)
    (h1 : lookupD positions tu.tool_call_id = some (some (cid, idx)))
    (h2 : lookupD chans cid = some ch)
    (h3 : ch.messages.get? idx = some (.ai am))
    (h4 : lookupD am.internal_tool_messages tu.tool_call_id = some itm) :
    applyOneToolUpdate now chans positions tu = .ok (dictSet chans cid
      { ch with messages := toolUpdatedMessages now tu ch am itm idx }) := by
  simp only [applyOneToolUpdate, h1, h2, h3, h4]
  rfl

theorem getLast?_set_of_succ_lt {α : Type} (l : List α) (i : Nat) (v : α)
    (hlt : i + 1 < l.length) : (l.set i v).getLast? = l.getLast? := by
  rw [List.getLast?_eq_get?, List.getLast?_eq_get?, List.length_set]
  exact List.get?_set_ne v l (by omega)

/-- Claim C7 as amended: a located tool update sets the ToolState internal
status; its content is set only when given and non-empty (an empty string is
treated as absent, so the old content survives); if the hosting Agent message
is last in its channel nothing is appended, otherwise a transient
`#toolupdated#` System message with lifespan 1 is appended, its date clamped
to at least the channel last message date. -/
theorem c7_tool_update_last_vs_not_last (now : Date) (h : History)
    (tu : InternalToolMessage) (cid : String) (idx : Nat) (ch : Channel)
    (am : AIMessage_) (itm : InternalToolMessage)
    (hloc : lookupD (locate_tool_calls now h [tu.tool_call_id]) tu.tool_call_id
        = some (some (cid, idx)))
    (hch : lookupD h.channels cid = some ch)
    (hmsg : ch.messages.get? idx = some (.ai am))
    (hitm : lookupD am.internal_tool_messages tu.tool_call_id = some itm) :
    ∃ h' ch',
      history_reducer now h
        { channel_updates := [], current_channel := none, tool_updates := [tu] } = .ok h'
      ∧ lookupD h'.channels cid = some ch'
      ∧ (itm.set_status tu.internal_status (contentOrNone tu.content)).internal_status
          = tu.internal_status
      ∧ (tu.content = some "" →
          (itm.set_status tu.internal_status (contentOrNone tu.content)).content
            = itm.content)
      ∧ (idx + 1 = ch.messages.length →
          ch'.messages = ch.messages.set idx (.ai { am with
            internal_tool_messages := dictSet am.internal_tool_messages tu.tool_call_id
              (itm.set_status tu.internal_status (contentOrNone tu.content)) }))
      ∧ (idx + 1 < ch.messages.length →
          ∃ temp : SystemMessage_,
            ch'.messages = ch.messages.set idx (.ai { am with
              internal_tool_messages := dictSet am.internal_tool_messages tu.tool_call_id
                (itm.set_status tu.internal_status (contentOrNone tu.content)) })
              ++ [.system temp]
            ∧ temp.content = "#toolupdated#" ++ tu.tool_call_id
            ∧ temp.lifespan = some 1
            ∧ lastDate ch.messages ≤ temp.date) := by
  have hone := applyOneToolUpdate_hit now h.channels
    (locate_tool_calls now h [tu.tool_call_id]) tu cid idx ch am itm hloc hch hmsg hitm
  have hred : history_reducer now h
      { channel_updates := [], current_channel := none, tool_updates := [tu] }
      = .ok (History.mk h.current_channel (dictSet h.channels cid
          { ch with messages := toolUpdatedMessages now tu ch am itm idx })) := by
    show applyToolUpdates now (History.mk h.current_channel h.channels) [tu] = _
    unfold applyToolUpdates
    simp only [List.isEmpty_cons, Bool.false_eq_true, if_false, List.foldlM]
    have hone' : applyOneToolUpdate now h.channels
        (locate_tool_calls now (History.mk h.current_channel h.channels)
          (List.map (fun x => x.tool_call_id) [tu])) tu
        = .ok (dictSet h.channels cid
          { ch with messages := toolUpdatedMessages now tu ch am itm idx }) := hone
    rw [hone']
    rfl
  have hidxlt : idx < ch.messages.length := by
    cases hlt : decide (idx < ch.messages.length) with
    | true => exact of_decide_eq_true hlt
    | false =>
      exfalso
      have := List.get?_eq_none.mpr (Nat.le_of_not_lt (of_decide_eq_false hlt))
      rw [this] at hmsg
      cases hmsg
  refine ⟨_, { ch with messages := toolUpdatedMessages now tu ch am itm idx }, hred,
    lookupD_dictSet_self _ _ _, ?_, ?_, ?_, ?_⟩
  · cases hc : contentOrNone tu.content <;>
      simp [InternalToolMessage.set_status, hc]
  · intro hce
    have : contentOrNone tu.content = none := by rw [hce]; rfl
    rw [this]
    simp [InternalToolMessage.set_status]
  · intro heq
    unfold toolUpdatedMessages
    dsimp only
    rw [List.length_set, ← heq]
    simp
  · intro hlt
    unfold toolUpdatedMessages
    dsimp only
    rw [List.length_set, if_pos hlt, getLast?_set_of_succ_lt ch.messages idx _ hlt]
    cases hgl : ch.messages.getLast? with
    | none =>
      exfalso
      have : ch.messages = [] := List.getLast?_eq_none_iff.mp hgl
      rw [this] at hidxlt
      exact absurd hidxlt (by simp)
    | some lastm =>
      by_cases hdd : now < lastm.date
      · dsimp only
        rw [if_pos hdd]
        refine ⟨_, rfl, rfl, rfl, ?_⟩
        show lastDate ch.messages ≤ lastm.date
        unfold lastDate
        rw [hgl]
      · dsimp only
        rw [if_neg hdd]
        refine ⟨_, rfl, rfl, rfl, ?_⟩
        show lastDate ch.messages ≤ now
        unfold lastDate
        rw [hgl]
        exact Nat.le_of_not_lt hdd

def c7Itm : InternalToolMessage :=
  { tool_call_id := "t7", internal_status := .unconfirmed,
    status := .error, content := some "w" }

def c7AiMessage : AIMessage_ :=
  { content := "calling", date := 10,
    tool_calls := [{ id := "t7", name := "x" }],
    internal_tool_messages := [("t7", c7Itm)] }

def c7Hist : History :=
  { current_channel := some "c1",
    channels := [("c1",
      { defaultChannel "c1" 0 with messages := [.ai c7AiMessage], last_activity := 10 })] }

def c7EmptyContentUpdate : InternalToolMessage :=
  { tool_call_id := "t7", internal_status := .completed, content := some "" }

/-- Counterexample to C7 as stated: a tool update carrying content
(the empty string) on a located last Agent message sets internal_status but
does NOT set the content (Python truthiness treats the empty string as
absent), so "sets content when given" fails for given empty content. -/
theorem c7_counterexample_empty_content :
    c7EmptyContentUpdate.content = some ""
    ∧ ((history_reducer 5 c7Hist
          { channel_updates := [], current_channel := none,
            tool_updates := [c7EmptyContentUpdate] }).toOption.bind
        (fun hh => lookupD hh.channels "c1")).map
        (fun ch => ch.messages.map (fun m =>
          match m with
          | .ai am => am.internal_tool_messages.map
              (fun q : String × InternalToolMessage =>
                (q.1, q.2.internal_status, q.2.content))
          | _ => []))
        = some [[("t7", ToolCallStatus.completed, some "w")]] := by
  exact ⟨rfl, rfl⟩

/-- Witness for the amended C7 at a channel whose Agent message is last. -/
theorem c7_tool_update_last_vs_not_last_witness :
    lookupD (locate_tool_calls 5 c7Hist [c7EmptyContentUpdate.tool_call_id])
      c7EmptyContentUpdate.tool_call_id = some (some ("c1", 0))
    ∧ (lookupD c7Hist.channels "c1").isSome
    ∧ (∃ h' ch',
        history_reducer 5 c7Hist
          { channel_updates := [], current_channel := none,
            tool_updates := [c7EmptyContentUpdate] } = .ok h'
        ∧ lookupD h'.channels "c1" = some ch'
        ∧ (c7Itm.set_status
            c7EmptyContentUpdate.internal_status
            (contentOrNone c7EmptyContentUpdate.content)).internal_status
            = c7EmptyContentUpdate.internal_status) := by
  refine ⟨by decide, by decide, ?_⟩
  obtain ⟨h', ch', hr, hl, hs, _⟩ := c7_tool_update_last_vs_not_last 5 c7Hist
    c7EmptyContentUpdate "c1" 0
    ((lookupD c7Hist.channels "c1").getD (defaultChannel "c1" 0))
    c7AiMessage c7Itm
    (by decide) (by decide) (by decide) (by decide)
  exact ⟨h', ch', hr, hl, hs⟩

-- ===================== sortedness lemmas (claim C4) =====================

/-- The channel invariant: messages in non-decreasing date order. -/
def msgsSorted (l : List StructuredMessage) : Prop :=
  l.Pairwise (fun a b => a.date ≤ b.date)

theorem withDate_date (m : StructuredMessage) (d : Date) : (m.withDate d).date = d := by
  cases m <;> rfl

theorem map_date_set :
    ∀ (msgs : List StructuredMessage) (i : Nat) (v : StructuredMessage),
      (∀ w, msgs.get? i = some w → v.date = w.date) →
      (msgs.set i v).map StructuredMessage.date = msgs.map StructuredMessage.date
  | [], _, _, _ => rfl
  | m :: rest, 0, v, hd => by
    simp only [List.set, List.map_cons, hd m rfl]
  | m :: rest, i + 1, v, hd => by
    simp only [List.set, List.map_cons, map_date_set rest i v (fun w hw => hd w hw)]

theorem msgsSorted_of_map_date_eq (l1 l2 : List StructuredMessage)
    (he : l2.map StructuredMessage.date = l1.map StructuredMessage.date)
    (hs : msgsSorted l1) : msgsSorted l2 := by
  unfold msgsSorted at *
  have h1 : (List.map StructuredMessage.date l1).Pairwise (· ≤ ·) :=
    List.pairwise_map.mpr hs
  rw [← he] at h1
  exact List.pairwise_map.mp h1

theorem applyMsgUpdates_map_date :
    ∀ (l : List (Nat × StructuredMessage)) (msgs msgs2 : List StructuredMessage),
      applyMsgUpdates msgs l = .ok msgs2 →
      msgs2.map StructuredMessage.date = msgs.map StructuredMessage.date
  | [], msgs, msgs2, hok => by
    cases hok
    rfl
  | (j, mj) :: rest, msgs, msgs2, hok => by
    by_cases hj : j < msgs.length
    · simp only [applyMsgUpdates, dif_pos hj] at hok
      have h1 := applyMsgUpdates_map_date rest _ msgs2 hok
      rw [h1]
      refine map_date_set msgs j _ (fun w hw => ?_)
      rw [withDate_date]
      have : msgs.get? j = some (msgs.get ⟨j, hj⟩) := List.get?_eq_get hj
      rw [this] at hw
      cases hw
      rfl
    · simp only [applyMsgUpdates, dif_neg hj] at hok
      cases hok

theorem mem_of_getLast?_eq (l : List StructuredMessage) (a : StructuredMessage)
    (h : l.getLast? = some a) : a ∈ l := by
  obtain ⟨hne, heq⟩ := List.mem_getLast?_eq_getLast (by rw [h]; rfl)
  rw [heq]
  exact List.getLast_mem hne

theorem msgsSorted_le_lastDate :
    ∀ (l : List StructuredMessage), msgsSorted l → ∀ a ∈ l, a.date ≤ lastDate l
  | [], _, a, ha => absurd ha (by simp)
  | m :: rest, hs, a, ha => by
    cases hrest : rest with
    | nil =>
      cases hrest
      rcases List.mem_singleton.mp ha with rfl
      exact Nat.le_refl _
    | cons r rs =>
      subst hrest
      have hl : lastDate (m :: r :: rs) = lastDate (r :: rs) := by
        unfold lastDate
        rw [List.getLast?_cons_cons]
      rw [hl]
      have hs2 := (List.pairwise_cons.mp hs).2
      rcases List.mem_cons.mp ha with rfl | hmem
      · have hlast : ∃ b, (r :: rs).getLast? = some b := by
          cases hgl : (r :: rs).getLast? with
          | none => exact absurd (List.getLast?_eq_none_iff.mp hgl) (by simp)
          | some b => exact ⟨b, rfl⟩
        obtain ⟨b, hb⟩ := hlast
        have hbm : b ∈ r :: rs := mem_of_getLast?_eq _ _ hb
        have : a.date ≤ b.date := (List.pairwise_cons.mp hs).1 b hbm
        unfold lastDate
        rw [hb]
        exact this
      · exact msgsSorted_le_lastDate (r :: rs) hs2 a hmem

theorem msgsSorted_append_one (l : List StructuredMessage) (m : StructuredMessage)
    (hs : msgsSorted l) (hle : l = [] ∨ lastDate l ≤ m.date) :
    msgsSorted (l ++ [m]) := by
  unfold msgsSorted
  rw [List.pairwise_append]
  refine ⟨hs, List.pairwise_singleton _ _, fun a ha b hb => ?_⟩
  rcases List.mem_singleton.mp hb with rfl
  rcases hle with rfl | hle
  · cases ha
  · exact Nat.le_trans (msgsSorted_le_lastDate l hs a ha) hle

theorem msgsSorted_sublist (l1 l2 : List StructuredMessage)
    (h : List.Sublist l1 l2) (hs : msgsSorted l2) : msgsSorted l1 :=
  List.Pairwise.sublist h hs

theorem foldl_erase_sorted :
    ∀ (dl : List Nat) (msgs : List StructuredMessage), msgsSorted msgs →
      msgsSorted (dl.foldl (fun ms i => if i < ms.length then ms.eraseIdx i else ms) msgs)
  | [], _, hs => hs
  | i :: rest, msgs, hs => by
    simp only [List.foldl_cons]
    refine foldl_erase_sorted rest _ ?_
    by_cases hi : i < msgs.length
    · rw [if_pos hi]
      exact msgsSorted_sublist _ _ (List.eraseIdx_sublist msgs i) hs
    · rw [if_neg hi]
      exact hs

theorem applyDeletes_sorted (msgs : List StructuredMessage) (dl : List Nat)
    (hs : msgsSorted msgs) : msgsSorted (applyDeletes msgs dl) :=
  foldl_erase_sorted _ msgs hs

theorem applyDeleteBefore_messages (now : Date) (ch : Channel) :
    ∀ od : Option Date, (applyDeleteBefore now ch od).messages
      = (match od with
         | none => ch.messages
         | some d => ch.messages.filter (fun m => d ≤ m.date))
  | none => rfl
  | some _ => rfl

theorem msgsSorted_head_le (l : List StructuredMessage) (h0 : StructuredMessage)
    (hh : l.head? = some h0) (hs : msgsSorted l) : ∀ b ∈ l, h0.date ≤ b.date := by
  cases l with
  | nil => cases hh
  | cons x rest =>
    cases hh
    intro b hb
    rcases List.mem_cons.mp hb with rfl | hmem
    · exact Nat.le_refl _
    · exact (List.pairwise_cons.mp hs).1 b hmem

theorem applyAppendLeft_sorted :
    ∀ (news msgs : List StructuredMessage), msgsSorted msgs →
      msgsSorted (applyAppendLeft msgs news)
  | [], _, hs => hs
  | m :: rest, msgs, hs => by
    have hstep : msgsSorted (match msgs.head? with
        | some h0 => if h0.date < m.date then (m.withDate h0.date) :: msgs else m :: msgs
        | none => m :: msgs) := by
      cases hh : msgs.head? with
      | none =>
        have : msgs = [] := List.head?_eq_none_iff.mp hh
        subst this
        exact List.pairwise_singleton _ _
      | some h0 =>
        dsimp only
        by_cases hlt : h0.date < m.date
        · rw [if_pos hlt]
          refine List.Pairwise.cons (fun b hb => ?_) hs
          rw [withDate_date]
          exact msgsSorted_head_le msgs h0 hh hs b hb
        · rw [if_neg hlt]
          refine List.Pairwise.cons (fun b hb => ?_) hs
          exact Nat.le_trans (Nat.le_of_not_lt hlt) (msgsSorted_head_le msgs h0 hh hs b hb)
    exact applyAppendLeft_sorted rest _ hstep

theorem foldl_appendNew_flag_mono :
    ∀ (news : List StructuredMessage) (st : List StructuredMessage × Bool),
      st.2 = true →
      (news.foldl (fun (p : List StructuredMessage × Bool) m =>
        (p.1 ++ [m], p.2 || (!p.1.isEmpty && decide (m.date < lastDate p.1)))) st).2 = true
  | [], _, h => h
  | m :: rest, st, h => by
    simp only [List.foldl_cons]
    exact foldl_appendNew_flag_mono rest _ (by rw [h]; rfl)

theorem foldl_appendNew_sorted :
    ∀ (news : List StructuredMessage) (msgs : List StructuredMessage),
      msgsSorted msgs →
      (news.foldl (fun (p : List StructuredMessage × Bool) m =>
        (p.1 ++ [m], p.2 || (!p.1.isEmpty && decide (m.date < lastDate p.1)))) (msgs, false)).2
        = false →
      msgsSorted (news.foldl (fun (p : List StructuredMessage × Bool) m =>
        (p.1 ++ [m], p.2 || (!p.1.isEmpty && decide (m.date < lastDate p.1)))) (msgs, false)).1
  | [], msgs, hs, _ => hs
  | m :: rest, msgs, hs, hflag => by
    simp only [List.foldl_cons] at hflag ⊢
    have hc : (false || (!msgs.isEmpty && decide (m.date < lastDate msgs))) = false := by
      cases hcv : (false || (!msgs.isEmpty && decide (m.date < lastDate msgs))) with
      | false => rfl
      | true =>
        exfalso
        have := foldl_appendNew_flag_mono rest ((msgs, false).1 ++ [m],
          (msgs, false).2 || (!(msgs, false).1.isEmpty
            && decide (m.date < lastDate (msgs, false).1))) (by simpa using hcv)
        rw [hflag] at this
        cases this
    have hsa : msgsSorted (msgs ++ [m]) := by
      refine msgsSorted_append_one msgs m hs ?_
      cases hie : msgs.isEmpty with
      | true => exact Or.inl (by simpa using hie)
      | false =>
        have : decide (m.date < lastDate msgs) = false := by
          rw [Bool.false_or, hie] at hc
          simpa using hc
        exact Or.inr (Nat.le_of_not_lt (of_decide_eq_false this))
    have heq : ((msgs, false).1 ++ [m], (msgs, false).2
        || (!(msgs, false).1.isEmpty && decide (m.date < lastDate (msgs, false).1)))
        = (msgs ++ [m], false) := by
      simp only
      rw [hc]
    rw [heq] at hflag ⊢
    exact foldl_appendNew_sorted rest (msgs ++ [m]) hsa hflag

theorem applyNewMessages_sorted (msgs news : List StructuredMessage)
    (hs : msgsSorted msgs) : msgsSorted (applyNewMessages msgs news) := by
  unfold applyNewMessages
  dsimp only
  cases hf : (news.foldl (fun (p : List StructuredMessage × Bool) m =>
      (p.1 ++ [m], p.2 || (!p.1.isEmpty && decide (m.date < lastDate p.1)))) (msgs, false)).2 with
  | true =>
    rw [if_pos rfl]
    have := List.sorted_insertionSort msgLE (news.foldl
      (fun (p : List StructuredMessage × Bool) m =>
        (p.1 ++ [m], p.2 || (!p.1.isEmpty && decide (m.date < lastDate p.1)))) (msgs, false)).1
    exact this.imp (fun hab => hab)
  | false =>
    rw [if_neg (by simp)]
    exact foldl_appendNew_sorted news msgs hs hf

theorem applyNewSummaries_messages (ch : Channel) (l : List Summary) :
    (applyNewSummaries ch l).messages = ch.messages := by
  unfold applyNewSummaries
  split <;> rfl

theorem applyChannelRest_messages (now : Date) (ch : Channel) (cu : InternalChannelUpdates) :
    (applyChannelRest now ch cu).messages
      = applyNewMessages (applyAppendLeft
          (applyDeleteBefore now
            { ch with messages := applyDeletes ch.messages cu.message_deletes }
            cu.delete_before).messages
          cu.message_append_left) cu.new_messages := by
  unfold applyChannelRest
  rw [show ∀ x : Channel, (applyMetaAgain x cu).messages = x.messages from fun _ => rfl]
  rw [applyNewSummaries_messages]
  split <;> rfl

theorem applyChannelRest_sorted (now : Date) (ch : Channel) (cu : InternalChannelUpdates)
    (hs : msgsSorted ch.messages) : msgsSorted (applyChannelRest now ch cu).messages := by
  rw [applyChannelRest_messages]
  apply applyNewMessages_sorted
  apply applyAppendLeft_sorted
  rw [applyDeleteBefore_messages]
  cases cu.delete_before with
  | none => exact applyDeletes_sorted ch.messages cu.message_deletes hs
  | some d =>
    exact msgsSorted_sublist _ _ (List.filter_sublist _)
      (applyDeletes_sorted ch.messages cu.message_deletes hs)

theorem applyChannelUpdate_sorted (now : Date) (ch ch2 : Channel)
    (cu : InternalChannelUpdates) (hok : applyChannelUpdate now ch cu = .ok ch2)
    (hs : msgsSorted ch.messages) : msgsSorted ch2.messages := by
  unfold applyChannelUpdate at hok
  cases hm : applyMsgUpdates (applyMeta ch cu).messages cu.message_updates with
  | error e =>
    rw [hm] at hok
    cases hok
  | ok msgs =>
    rw [hm] at hok
    cases hok
    apply applyChannelRest_sorted
    show msgsSorted msgs
    exact msgsSorted_of_map_date_eq _ msgs (applyMsgUpdates_map_date _ _ _ hm) hs

theorem dictSet_mem {κ α : Type} [DecidableEq κ] :
    ∀ (l : List (κ × α)) (k : κ) (v : α) (x : κ × α),
      x ∈ dictSet l k v → x = (k, v) ∨ x ∈ l
  | [], k, v, x, hx => Or.inl (List.mem_singleton.mp hx)
  | (k', v') :: rest, k, v, x, hx => by
    by_cases hk : k' = k
    · simp only [dictSet, if_pos hk] at hx
      rcases List.mem_cons.mp hx with rfl | hmem
      · exact Or.inl rfl
      · exact Or.inr (List.mem_cons_of_mem _ hmem)
    · simp only [dictSet, if_neg hk] at hx
      rcases List.mem_cons.mp hx with rfl | hmem
      · exact Or.inr (List.mem_cons_self _ _)
      · rcases dictSet_mem rest k v x hmem with hh | hh
        · exact Or.inl hh
        · exact Or.inr (List.mem_cons_of_mem _ hh)

theorem mem_of_lookupD {κ α : Type} [DecidableEq κ] :
    ∀ (l : List (κ × α)) (k : κ) (v : α), lookupD l k = some v → (k, v) ∈ l
  | [], _, _, h => by cases h
  | (k', v') :: rest, k, v, h => by
    by_cases hk : k' = k
    · simp only [lookupD, if_pos hk] at h
      cases h
      subst hk
      exact List.mem_cons_self _ _
    · simp only [lookupD, if_neg hk] at h
      exact List.mem_cons_of_mem _ (mem_of_lookupD rest k v h)

/-- The invariant of claim C4 over a channel dict. -/
def channelsSorted (chans : List (String × Channel)) : Prop :=
  ∀ p ∈ chans, msgsSorted p.2.messages

instance (l : List StructuredMessage) : Decidable (msgsSorted l) :=
  List.instDecidablePairwise l

instance (chans : List (String × Channel)) : Decidable (channelsSorted chans) :=
  List.decidableBAll _ chans

theorem applyChannelList_sorted (now : Date) :
    ∀ (l : List (String × InternalChannelUpdates)) (chans chans' : List (String × Channel)),
      channelsSorted chans → applyChannelList now chans l = .ok chans' →
      channelsSorted chans'
  | [], chans, chans', hcs, hok => by
    cases hok
    exact hcs
  | (cid, cu) :: rest, chans, chans', hcs, hok => by
    simp only [applyChannelList] at hok
    cases hu : applyChannelUpdate now ((lookupD chans cid).getD (defaultChannel cid now)) cu with
    | error e =>
      rw [hu] at hok
      cases hok
    | ok ch' =>
      rw [hu] at hok
      refine applyChannelList_sorted now rest _ chans' ?_ hok
      intro p hp
      rcases dictSet_mem _ _ _ _ hp with rfl | hmem
      · refine applyChannelUpdate_sorted now _ _ cu hu ?_
        cases hl : lookupD chans cid with
        | none => exact List.Pairwise.nil
        | some c =>
          have := hcs (cid, c) (mem_of_lookupD _ _ _ hl)
          simpa [hl] using this
      · exact hcs p hmem

theorem toolUpdatedMessages_sorted (now : Date) (tu : InternalToolMessage) (ch : Channel)
    (am : AIMessage_) (itm : InternalToolMessage) (idx : Nat)
    (hget : ch.messages.get? idx = some (.ai am))
    (hs : msgsSorted ch.messages) : msgsSorted (toolUpdatedMessages now tu ch am itm idx) := by
  unfold toolUpdatedMessages
  dsimp only
  have hmd : ∀ am2 : AIMessage_, am2.date = am.date →
      (ch.messages.set idx (.ai am2)).map StructuredMessage.date
        = ch.messages.map StructuredMessage.date := by
    intro am2 hd
    refine map_date_set _ idx _ (fun w hw => ?_)
    rw [hget] at hw
    cases hw
    exact hd
  have hsorted2 : msgsSorted (ch.messages.set idx (.ai { am with
      internal_tool_messages := dictSet am.internal_tool_messages tu.tool_call_id
        (itm.set_status tu.internal_status (contentOrNone tu.content)) })) :=
    msgsSorted_of_map_date_eq _ _ (hmd _ rfl) hs
  by_cases hlt : idx + 1 < (ch.messages.set idx (.ai { am with
      internal_tool_messages := dictSet am.internal_tool_messages tu.tool_call_id
        (itm.set_status tu.internal_status (contentOrNone tu.content)) })).length
  · rw [if_pos hlt]
    cases hgl : (ch.messages.set idx (.ai { am with
        internal_tool_messages := dictSet am.internal_tool_messages tu.tool_call_id
          (itm.set_status tu.internal_status (contentOrNone tu.content)) })).getLast? with
    | none =>
      exfalso
      have hempty := List.getLast?_eq_none_iff.mp hgl
      rw [hempty] at hlt
      exact absurd hlt (by simp)
    | some lastm =>
      dsimp only
      refine msgsSorted_append_one _ _ hsorted2 (Or.inr ?_)
      have hld : lastDate (ch.messages.set idx (.ai { am with
          internal_tool_messages := dictSet am.internal_tool_messages tu.tool_call_id
            (itm.set_status tu.internal_status (contentOrNone tu.content)) }))
          = lastm.date := by
        unfold lastDate
        rw [hgl]
      rw [hld]
      by_cases hdd : now < lastm.date
      · rw [if_pos hdd]
        exact Nat.le_refl _
      · rw [if_neg hdd]
        exact Nat.le_of_not_lt hdd
  · rw [if_neg hlt]
    exact hsorted2

theorem applyOneToolUpdate_sorted (now : Date) (chans chans' : List (String × Channel))
    (positions : LocateResults) (tu : InternalToolMessage)
    (hok : applyOneToolUpdate now chans positions tu = .ok chans')
    (hcs : channelsSorted chans) : channelsSorted chans' := by
  unfold applyOneToolUpdate at hok
  split at hok
  · rename_i cid idx h1
    split at hok
    · cases hok
    · rename_i ch h2
      split at hok
      · cases hok
      · rename_i am h3
        split at hok
        · cases hok
        · rename_i itm h4
          cases hok
          intro p hp
          rcases dictSet_mem _ _ _ _ hp with rfl | hmem
          · show msgsSorted _
            have hchs : msgsSorted ch.messages := hcs (cid, ch) (mem_of_lookupD _ _ _ h2)
            exact toolUpdatedMessages_sorted now tu ch am itm idx h3 hchs
          · exact hcs p hmem
      · cases hok
  · cases hok
    exact hcs

theorem toolUpdatesFold_sorted (now : Date) (positions : LocateResults) :
    ∀ (tus : List InternalToolMessage) (chans chans' : List (String × Channel)),
      List.foldlM (fun cs tu => applyOneToolUpdate now cs positions tu) chans tus
        = .ok chans' →
      channelsSorted chans → channelsSorted chans'
  | [], chans, chans', hok, hcs => by
    cases hok
    exact hcs
  | tu :: rest, chans, chans', hok, hcs => by
    rw [List.foldlM_cons] at hok
    cases h1 : applyOneToolUpdate now chans positions tu with
    | error e =>
      rw [h1] at hok
      cases hok
    | ok mid =>
      rw [h1] at hok
      have hok' : List.foldlM (fun cs tu => applyOneToolUpdate now cs positions tu)
          mid rest = .ok chans' := hok
      exact toolUpdatesFold_sorted now positions rest mid chans' hok'
        (applyOneToolUpdate_sorted now chans mid positions tu h1 hcs)

theorem applyToolUpdates_sorted (now : Date) (hh h' : History)
    (tus : List InternalToolMessage) (hok : applyToolUpdates now hh tus = .ok h')
    (hcs : channelsSorted hh.channels) : channelsSorted h'.channels := by
  unfold applyToolUpdates at hok
  by_cases he : tus.isEmpty
  · rw [if_pos he] at hok
    cases hok
    exact hcs
  · rw [if_neg he] at hok
    dsimp only at hok
    cases hf : List.foldlM
        (fun cs tu => applyOneToolUpdate now cs
          (locate_tool_calls now hh (List.map (fun x => x.tool_call_id) tus)) tu)
        hh.channels tus with
    | error e =>
      rw [hf] at hok
      cases hok
    | ok chans =>
      rw [hf] at hok
      cases hok
      exact toolUpdatesFold_sorted now _ tus hh.channels chans hf hcs

-- ===================== claim C4 =====================

/-- Claim C4: a reducer application (positional updates with date
preservation, index and delete_before deletes, left-appends with date
clamping, appends with re-sorting, and the transient toolupdated System
message appended for tool updates) keeps every channel messages list sorted
non-decreasing by date, for every input History whose channels already
satisfy the invariant. -/
theorem c4_reducer_preserves_sorted (now : Date) (h h' : History) (u : InternalUpdates)
    (hs : channelsSorted h.channels)
    (hok : history_reducer now h u = .ok h') :
    channelsSorted h'.channels := by
  unfold history_reducer at hok
  cases hcl : applyChannelList now h.channels u.channel_updates with
  | error e =>
    rw [hcl] at hok
    cases hok
  | ok chans1 =>
    rw [hcl] at hok
    have h1 := applyChannelList_sorted now u.channel_updates h.channels chans1 hs hcl
    exact applyToolUpdates_sorted now _ h' u.tool_updates hok h1

def c4Hist : History :=
  { current_channel := some "c",
    channels := [("c",
      { defaultChannel "c" 0 with
        messages := [.human { content := "a", date := 10 },
                     .human { content := "b", date := 30 }],
        last_activity := 30 })] }

def c4Upd : InternalUpdates :=
  { channel_updates := [("c",
      { new_messages := [.human { content := "x", date := 20 }],
        message_append_left := [.human { content := "z", date := 25 }],
        message_updates := [(0, .human { content := "r", date := 99 })] }),
    ("d", { new_messages := [.human { content := "q", date := 7 }] })] }

/-- Witness for C4 on a concrete reducer application that resorts, clamps a
left-append, applies a positional update, and creates a channel. -/
theorem c4_reducer_preserves_sorted_witness :
    channelsSorted c4Hist.channels
    ∧ (∃ hres, history_reducer 40 c4Hist c4Upd = .ok hres)
    ∧ channelsSorted (applyOrKeep 40 c4Hist c4Upd).channels :=
  ⟨by decide, ⟨applyOrKeep 40 c4Hist c4Upd, by rfl⟩,
   c4_reducer_preserves_sorted 40 c4Hist (applyOrKeep 40 c4Hist c4Upd) c4Upd
     (by decide) (by rfl)⟩

-- ===================== claim C9 =====================

def c9EmptyMsg : StructuredMessage := .human { content := "", date := 7 }

/-- Counterexample to C9 as stated: with max_size = 0 and min_message = 0, a
message of zero counted size (empty content) is retained by assemble, so the
result has one item, more than min_message = 0. -/
theorem c9_counterexample_zero_size :
    (assemble_messages [c9EmptyMsg] [] 0 true 0 0 none none none).map List.length
      = .ok 1
    ∧ ¬ ((1 : Nat) ≤ 0) :=
  ⟨rfl, by decide⟩

/-- The invariant carried through the backtracking loop when max_size = 0 and
all item sizes are positive: a single positively sized item whose size is a
lower bound of the running character count. -/
def asmInv (use_summary : Bool) (st : List AssembleItem × Int) : Prop :=
  ∃ x, st.1 = [x] ∧ 0 < itemSizeI use_summary x ∧ itemSizeI use_summary x ≤ st.2

theorem doSubstitution_singleton (use_summary : Bool) (c : Summary) (x : AssembleItem)
    (count : Int) (p : List AssembleItem × Int)
    (hres : doSubstitution use_summary c [x] count = .ok p) :
    p.1 = [AssembleItem.summ c]
    ∧ p.2 = count - itemSizeI use_summary x + itemSizeI use_summary (.summ c) := by
  unfold doSubstitution at hres
  cases hmatch : itemSpanMatch c x with
  | false =>
    rw [show [x].findIdx? (itemSpanMatch c) = none by
      rw [List.findIdx?_cons, hmatch, if_neg (by simp)]; rfl] at hres
    cases hres
  | true =>
    rw [show [x].findIdx? (itemSpanMatch c) = some 0 by
      rw [List.findIdx?_cons, hmatch, if_pos rfl]] at hres
    cases hres
    constructor
    · simp [hmatch]
    · simp [hmatch]

theorem backtrackPass_inv (use_summary : Bool) (summaries : List (Date × List Summary))
    (hpos_sum : ∀ p ∈ summaries, ∀ s ∈ p.2, 0 < s.summary.length) :
    ∀ (snapshot : List AssembleItem) (st : List AssembleItem × Int × Bool)
      (st' : List AssembleItem × Int × Bool),
      backtrackPass use_summary summaries snapshot st = .ok st' →
      asmInv use_summary (st.1, st.2.1) → asmInv use_summary (st'.1, st'.2.1)
  | [], st, st', hok, hinv => by
    cases hok
    exact hinv
  | item :: rest, st, st', hok, hinv => by
    obtain ⟨assembled, count, found⟩ := st
    simp only [backtrackPass] at hok
    cases hlk : lookupD summaries (itemEnd item) with
    | none =>
      rw [hlk] at hok
      exact backtrackPass_inv use_summary summaries hpos_sum rest _ st' hok hinv
    | some cands =>
      rw [hlk] at hok
      dsimp only at hok
      cases hfind : cands.find? (fun c => decide (c.min_date < itemStart item)) with
      | none =>
        rw [hfind] at hok
        exact backtrackPass_inv use_summary summaries hpos_sum rest _ st' hok hinv
      | some c =>
        rw [hfind] at hok
        dsimp only at hok
        obtain ⟨x, hx1, hx2, hx3⟩ := hinv
        dsimp only at hx1
        subst hx1
        cases hsub : doSubstitution use_summary c [x] count with
        | error e =>
          rw [hsub] at hok
          cases hok
        | ok pr =>
          rw [hsub] at hok
          obtain ⟨hp1, hp2⟩ := doSubstitution_singleton use_summary c x count pr hsub
          have hcpos : 0 < itemSizeI use_summary (AssembleItem.summ c) := by
            have hcmem : c ∈ cands := List.mem_of_find?_eq_some hfind
            have := hpos_sum (itemEnd item, cands) (mem_of_lookupD _ _ _ hlk) c hcmem
            simpa [itemSizeI, _count_message_size] using this
          refine backtrackPass_inv use_summary summaries hpos_sum rest _ st' hok ?_
          have hx3' : itemSizeI use_summary x ≤ count := hx3
          refine ⟨AssembleItem.summ c, ?_, hcpos, ?_⟩
          · exact hp1
          · show itemSizeI use_summary (AssembleItem.summ c) ≤ pr.2
            rw [hp2]
            omega

theorem backtrackWhile_inv (use_summary : Bool) (summaries : List (Date × List Summary))
    (hpos_sum : ∀ p ∈ summaries, ∀ s ∈ p.2, 0 < s.summary.length) :
    ∀ (fuel : Nat) (assembled : List AssembleItem) (count : Int)
      (p : List AssembleItem × Int),
      backtrackWhile use_summary summaries 0 fuel assembled count = .ok p →
      asmInv use_summary (assembled, count) → asmInv use_summary p
  | 0, _, _, _, hok, _ => by cases hok
  | fuel + 1, assembled, count, p, hok, hinv => by
    simp only [backtrackWhile] at hok
    by_cases hgt : (0 : Int) < count
    · rw [if_pos hgt] at hok
      cases hpass : backtrackPass use_summary summaries assembled.reverse
          (assembled, count, false) with
      | error e =>
        rw [hpass] at hok
        cases hok
      | ok st2 =>
        rw [hpass] at hok
        have hok2 : (if st2.2.2 = true then
            backtrackWhile use_summary summaries 0 fuel st2.1 st2.2.1
          else .ok (st2.1, st2.2.1)) = .ok p := hok
        have hinv2 := backtrackPass_inv use_summary summaries hpos_sum _ _ _ hpass hinv
        cases hfound : st2.2.2 with
        | true =>
          rw [if_pos hfound] at hok2
          exact backtrackWhile_inv use_summary summaries hpos_sum fuel _ _ p hok2 hinv2
        | false =>
          rw [if_neg (by simp [hfound])] at hok2
          cases hok2
          exact hinv2
    · rw [if_neg hgt] at hok
      cases hok
      exact hinv

theorem assembleIncludeItem_inv (use_summary : Bool)
    (summaries : List (Date × List Summary)) (threshold : Nat)
    (m : StructuredMessage) (st st1 : AsmState)
    (hm : 0 < itemSizeI use_summary (.msg m))
    (hpos_sum : ∀ p ∈ summaries, ∀ s ∈ p.2, 0 < s.summary.length)
    (hok : assembleIncludeItem use_summary summaries threshold m st = .ok st1)
    (ha : st.assembled = []) (hc : 0 ≤ st.count) :
    asmInv use_summary (st1.assembled, st1.count) := by
  unfold assembleIncludeItem at hok
  by_cases hbr : (decide (st.min_message = 0) && (lookupD summaries m.date).isSome) = true
  · rw [if_pos hbr] at hok
    cases hlk : lookupD summaries m.date with
    | none =>
      rw [hlk] at hok
      cases hok
    | some cands =>
      rw [hlk] at hok
      dsimp only at hok
      cases hget : cands.get? (Nat.min threshold (cands.length - 1)) with
      | none =>
        rw [hget] at hok
        cases hok
      | some s =>
        rw [hget] at hok
        cases hok
        have hspos : 0 < itemSizeI use_summary (.summ s) := by
          have hsmem : s ∈ cands := List.get?_mem hget
          have := hpos_sum (m.date, cands) (mem_of_lookupD _ _ _ hlk) s hsmem
          simpa [itemSizeI, _count_message_size] using this
        refine ⟨.summ s, ?_, hspos, ?_⟩
        · show st.assembled ++ [AssembleItem.summ s] = [AssembleItem.summ s]
          rw [ha]
          rfl
        · show itemSizeI use_summary (.summ s) ≤ st.count + itemSizeI use_summary (.summ s)
          omega
  · rw [if_neg hbr] at hok
    cases hok
    refine ⟨.msg m, ?_, hm, ?_⟩
    · show st.assembled ++ [AssembleItem.msg m] = [AssembleItem.msg m]
      rw [ha]
      rfl
    · show itemSizeI use_summary (.msg m) ≤ st.count + itemSizeI use_summary (.msg m)
      omega

theorem assembleInclude_inv (use_summary : Bool) (summaries : List (Date × List Summary))
    (threshold fuel : Nat) (m : StructuredMessage) (st st' : AsmState)
    (hm : 0 < itemSizeI use_summary (.msg m))
    (hpos_sum : ∀ p ∈ summaries, ∀ s ∈ p.2, 0 < s.summary.length)
    (hok : assembleInclude use_summary summaries 0 threshold fuel m st = .ok st')
    (ha : st.assembled = []) (hc : 0 ≤ st.count) :
    st'.assembled = [] ∧ 0 ≤ st'.count := by
  unfold assembleInclude at hok
  cases h1 : assembleIncludeItem use_summary summaries threshold m st with
  | error e =>
    rw [h1] at hok
    cases hok
  | ok st1 =>
    rw [h1] at hok
    have hok1 : (do
        let p ← backtrackWhile use_summary summaries 0 fuel st1.assembled st1.count
        if (0 : Int) < p.2 then
          match p.1.getLast? with
          | some _ => (pure { st1 with assembled := p.1.dropLast, count := p.2 }
              : Except String AsmState)
          | none => Except.error "pop from empty list"
        else pure { st1 with assembled := p.1, count := p.2 }) = Except.ok st' := hok
    have hinv1 := assembleIncludeItem_inv use_summary summaries threshold m st st1
      hm hpos_sum h1 ha hc
    cases h2 : backtrackWhile use_summary summaries 0 fuel st1.assembled st1.count with
    | error e =>
      rw [h2] at hok1
      cases hok1
    | ok p =>
      rw [h2] at hok1
      have hinvp := backtrackWhile_inv use_summary summaries hpos_sum fuel
        st1.assembled st1.count p h2 hinv1
      obtain ⟨x, hp1, hx2, hx3⟩ := hinvp
      have hgt : (0 : Int) < p.2 := Int.lt_of_lt_of_le hx2 hx3
      have hok2 : (if (0 : Int) < p.2 then
          (match p.1.getLast? with
           | some _ => (pure { st1 with assembled := p.1.dropLast, count := p.2 }
               : Except String AsmState)
           | none => .error "pop from empty list")
        else pure { st1 with assembled := p.1, count := p.2 }) = .ok st' := hok1
      rw [if_pos hgt, hp1] at hok2
      have hok3 : Except.ok
          ({ st1 with assembled := ([x] : List AssembleItem).dropLast, count := p.2 }
            : AsmState)
          = .ok st' := hok2
      cases hok3
      constructor
      · show [x].dropLast = []
        rfl
      · show (0 : Int) ≤ p.2
        omega

theorem assembleLoop_empty (use_summary : Bool) (summaries : List (Date × List Summary))
    (threshold : Nat) (max_message : Option Nat) (max_date : Option Date) (fuel : Nat)
    (hpos_sum : ∀ p ∈ summaries, ∀ s ∈ p.2, 0 < s.summary.length) :
    ∀ (msgs : List StructuredMessage) (st : AsmState) (res : List AssembleItem),
      (∀ m ∈ msgs, 0 < itemSizeI use_summary (.msg m)) →
      assembleLoop use_summary summaries 0 threshold max_message max_date fuel msgs st
        = .ok res →
      st.assembled = [] → 0 ≤ st.count → res = []
  | [], st, res, _, hok, ha, _ => by
    cases hok
    exact ha
  | m :: rest, st, res, hposm, hok, ha, hc => by
    have hposrest : ∀ mm ∈ rest, 0 < itemSizeI use_summary (.msg mm) :=
      fun mm hm => hposm mm (List.mem_cons_of_mem _ hm)
    have hposm0 : 0 < itemSizeI use_summary (.msg m) := hposm m (List.mem_cons_self _ _)
    simp only [assembleLoop] at hok
    split at hok
    · exact assembleLoop_empty use_summary summaries threshold max_message max_date fuel
        hpos_sum rest st res hposrest hok ha hc
    · split at hok
      · split at hok
        · cases hinc : assembleInclude use_summary summaries 0 threshold fuel m
              { st with min_date := some m.date } with
          | error e =>
            rw [hinc] at hok
            cases hok
          | ok st2 =>
            rw [hinc] at hok
            have hok2 : assembleLoop use_summary summaries 0 threshold max_message
                max_date fuel rest st2 = .ok res := hok
            obtain ⟨ha2, hc2⟩ := assembleInclude_inv use_summary summaries threshold fuel m
              _ st2 hposm0 hpos_sum hinc ha hc
            exact assembleLoop_empty use_summary summaries threshold max_message max_date
              fuel hpos_sum rest st2 res hposrest hok2 ha2 hc2
        · cases hok
          exact ha
      · split at hok
        · cases hok
          exact ha
        · cases hinc : assembleInclude use_summary summaries 0 threshold fuel m st with
          | error e =>
            rw [hinc] at hok
            cases hok
          | ok st2 =>
            rw [hinc] at hok
            have hok2 : assembleLoop use_summary summaries 0 threshold max_message
                max_date fuel rest st2 = .ok res := hok
            obtain ⟨ha2, hc2⟩ := assembleInclude_inv use_summary summaries threshold fuel m
              st st2 hposm0 hpos_sum hinc ha hc
            exact assembleLoop_empty use_summary summaries threshold max_message max_date
              fuel hpos_sum rest st2 res hposrest hok2 ha2 hc2

/-- Claim C9 as amended: assemble_messages with max_size = 0 returns at most
min_message items, provided every message and every summary has positive
counted size (items of zero counted size, such as an empty-content message,
are retained without counting against the budget and can exceed the bound;
under positivity the pop step discards every included item, so the result is
in fact empty). -/
theorem c9_assemble_max_size_zero (messages : List StructuredMessage)
    (summaries : List (Date × List Summary)) (threshold : Nat) (use_summary : Bool)
    (min_message : Nat) (max_message : Option Nat) (min_date max_date : Option Date)
    (res : List AssembleItem)
    (hpos_msg : ∀ m ∈ messages, 0 < itemSizeI use_summary (.msg m))
    (hpos_sum : ∀ p ∈ summaries, ∀ s ∈ p.2, 0 < s.summary.length)
    (hok : assemble_messages messages summaries threshold use_summary 0 min_message
        max_message min_date max_date = .ok res) :
    res.length ≤ min_message := by
  unfold assemble_messages at hok
  cases hl : assembleLoop use_summary summaries 0 threshold max_message max_date
      (assembleFuel messages summaries) messages.reverse
      { assembled := [], count := 0, min_message := min_message, min_date := min_date } with
  | error e =>
    rw [hl] at hok
    cases hok
  | ok lr =>
    rw [hl] at hok
    cases hok
    have hres := assembleLoop_empty use_summary summaries threshold max_message max_date
      (assembleFuel messages summaries) hpos_sum messages.reverse
      { assembled := [], count := 0, min_message := min_message, min_date := min_date }
      lr (fun m hm => hpos_msg m (List.mem_reverse.mp hm)) hl rfl (Int.le_refl 0)
    rw [hres]
    simp

def c9PosMsg : StructuredMessage := .human { content := "abc", date := 7 }

/-- Witness for the amended C9: a positively sized message under
max_size = 0 yields the empty assembly, within the min_message bound. -/
theorem c9_assemble_max_size_zero_witness :
    (∀ m ∈ [c9PosMsg], 0 < itemSizeI true (.msg m))
    ∧ (∀ p ∈ ([] : List (Date × List Summary)), ∀ s ∈ p.2, 0 < s.summary.length)
    ∧ assemble_messages [c9PosMsg] [] 0 true 0 0 none none none = .ok []
    ∧ ([] : List AssembleItem).length ≤ 0 :=
  ⟨by decide, by decide, by rfl,
   c9_assemble_max_size_zero [c9PosMsg] [] 0 true 0 none none none []
     (by decide) (by decide) (by rfl)⟩

-- ===================== claim C6 =====================

/-- Python dict equality on channel stores: same lookups for every key
(Python == on dicts ignores insertion order). -/
def chansEquiv (a b : List (String × Channel)) : Prop :=
  ∀ k, lookupD a k = lookupD b k

theorem chansEquiv_refl (a : List (String × Channel)) : chansEquiv a a := fun _ => rfl

theorem chansEquiv_symm {a b : List (String × Channel)} (h : chansEquiv a b) :
    chansEquiv b a := fun k => (h k).symm

theorem chansEquiv_trans {a b c : List (String × Channel)} (h1 : chansEquiv a b)
    (h2 : chansEquiv b c) : chansEquiv a c := fun k => (h1 k).trans (h2 k)

def exChansEquiv : Except String (List (String × Channel)) →
    Except String (List (String × Channel)) → Prop
  | .ok a, .ok b => chansEquiv a b
  | .error e, .error f => e = f
  | _, _ => False

theorem exChansEquiv_trans {a b c : Except String (List (String × Channel))}
    (h1 : exChansEquiv a b) (h2 : exChansEquiv b c) : exChansEquiv a c := by
  cases a <;> cases b <;> cases c <;> simp [exChansEquiv] at *
  · exact h1.trans h2
  · exact chansEquiv_trans h1 h2

theorem dictSet_comm {κ α : Type} [DecidableEq κ] (l : List (κ × α)) (k k2 : κ)
    (v w : α) (hne : k ≠ k2) (q : κ) :
    lookupD (dictSet (dictSet l k v) k2 w) q = lookupD (dictSet (dictSet l k2 w) k v) q := by
  by_cases hq1 : k2 = q
  · subst hq1
    rw [lookupD_dictSet_self, lookupD_dictSet_ne _ k k2 v hne, lookupD_dictSet_self]
  · by_cases hq2 : k = q
    · subst hq2
      rw [lookupD_dictSet_ne _ k2 k w (fun he => hne he.symm), lookupD_dictSet_self,
        lookupD_dictSet_self]
    · rw [lookupD_dictSet_ne _ k2 q w hq1, lookupD_dictSet_ne _ k q v hq2,
        lookupD_dictSet_ne _ k q v hq2, lookupD_dictSet_ne _ k2 q w hq1]

theorem dictSet_congr (a b : List (String × Channel)) (k : String) (v : Channel)
    (h : chansEquiv a b) : chansEquiv (dictSet a k v) (dictSet b k v) := by
  intro q
  by_cases hq : k = q
  · subst hq
    rw [lookupD_dictSet_self, lookupD_dictSet_self]
  · rw [lookupD_dictSet_ne _ k q v hq, lookupD_dictSet_ne _ k q v hq]
    exact h q

theorem applyChannelList_congr (now : Date) :
    ∀ (l : List (String × InternalChannelUpdates)) (a b : List (String × Channel)),
      chansEquiv a b →
      exChansEquiv (applyChannelList now a l) (applyChannelList now b l)
  | [], a, b, h => h
  | (k, cu) :: rest, a, b, h => by
    simp only [applyChannelList]
    rw [h k]
    cases hu : applyChannelUpdate now ((lookupD b k).getD (defaultChannel k now)) cu with
    | error e => rfl
    | ok ch' => exact applyChannelList_congr now rest _ _ (dictSet_congr a b k ch' h)

theorem applyChannelList_swap (now : Date) :
    ∀ (l : List (String × InternalChannelUpdates)) (a : List (String × Channel))
      (k : String) (v : Channel), k ∉ dictKeys l →
      exChansEquiv (applyChannelList now (dictSet a k v) l)
        (Except.map (fun c => dictSet c k v) (applyChannelList now a l))
  | [], a, k, v, _ => chansEquiv_refl _
  | (k2, cu) :: rest, a, k, v, hnk => by
    have hk2ne : k2 ≠ k := by
      intro he
      exact hnk (by simp [dictKeys, he])
    have hnkrest : k ∉ dictKeys rest := by
      intro hm
      refine hnk ?_
      simp only [dictKeys, List.map_cons, List.mem_cons]
      exact Or.inr hm
    simp only [applyChannelList]
    rw [lookupD_dictSet_ne _ k k2 v (fun he => hk2ne he.symm)]
    cases hu : applyChannelUpdate now ((lookupD a k2).getD (defaultChannel k2 now)) cu with
    | error e => rfl
    | ok ch2 =>
      have hcong := applyChannelList_congr now rest
        (dictSet (dictSet a k v) k2 ch2) (dictSet (dictSet a k2 ch2) k v)
        (fun q => dictSet_comm a k k2 v ch2 (fun he => hk2ne he.symm) q)
      exact exChansEquiv_trans hcong
        (applyChannelList_swap now rest (dictSet a k2 ch2) k v hnkrest)

theorem applyChannelList_comm (now : Date) :
    ∀ (l1 l2 : List (String × InternalChannelUpdates)) (a hA hB : List (String × Channel)),
      (∀ k, k ∈ dictKeys l1 → k ∉ dictKeys l2) →
      applyChannelList now a (l1 ++ l2) = .ok hA →
      applyChannelList now a (l2 ++ l1) = .ok hB →
      chansEquiv hA hB
  | [], l2, a, hA, hB, _, h12, h21 => by
    rw [List.nil_append] at h12
    rw [List.append_nil] at h21
    rw [h12] at h21
    cases h21
    exact chansEquiv_refl _
  | (k, cu) :: t1, l2, a, hA, hB, hdisj, h12, h21 => by
    have hknotl2 : k ∉ dictKeys l2 := hdisj k (by simp [dictKeys])
    have hdisj2 : ∀ q, q ∈ dictKeys t1 → q ∉ dictKeys l2 := by
      intro q hq
      refine hdisj q ?_
      simp only [dictKeys, List.map_cons, List.mem_cons]
      exact Or.inr hq
    rw [List.cons_append] at h12
    simp only [applyChannelList] at h12
    cases hu : applyChannelUpdate now ((lookupD a k).getD (defaultChannel k now)) cu with
    | error e =>
      rw [hu] at h12
      cases h12
    | ok ch1 =>
      rw [hu] at h12
      have h12b : applyChannelList now (dictSet a k ch1) (t1 ++ l2) = .ok hA := h12
      rw [applyChannelList_append] at h21
      cases hm : applyChannelList now a l2 with
      | error e =>
        rw [hm] at h21
        cases h21
      | ok m =>
        rw [hm] at h21
        have h21b : applyChannelList now m ((k, cu) :: t1) = .ok hB := h21
        simp only [applyChannelList] at h21b
        have hlk : lookupD m k = lookupD a k :=
          applyChannelList_frame now l2 a m k hknotl2 hm
        rw [hlk, hu] at h21b
        have h21c : applyChannelList now (dictSet m k ch1) t1 = .ok hB := h21b
        have hswap := applyChannelList_swap now l2 a k ch1 hknotl2
        rw [hm] at hswap
        cases hm2 : applyChannelList now (dictSet a k ch1) l2 with
        | error e =>
          rw [hm2] at hswap
          have hf : False := hswap
          exact hf.elim
        | ok m2 =>
          rw [hm2] at hswap
          have hswap2 : chansEquiv m2 (dictSet m k ch1) := hswap
          have hcong := applyChannelList_congr now t1 m2 (dictSet m k ch1) hswap2
          rw [h21c] at hcong
          cases hm3 : applyChannelList now m2 t1 with
          | error e =>
            rw [hm3] at hcong
            have hf : False := hcong
            exact hf.elim
          | ok hB2 =>
            rw [hm3] at hcong
            have hcong2 : chansEquiv hB2 hB := hcong
            have hfull : applyChannelList now (dictSet a k ch1) (l2 ++ t1) = .ok hB2 := by
              rw [applyChannelList_append, hm2]
              exact hm3
            have hmain := applyChannelList_comm now t1 l2 (dictSet a k ch1) hA hB2
              hdisj2 h12b hfull
            exact chansEquiv_trans hmain hcong2

theorem history_reducer_no_tools (now : Date) (h : History) (u : InternalUpdates)
    (htu : u.tool_updates = []) :
    history_reducer now h u = (applyChannelList now h.channels u.channel_updates).map
      (fun chans => History.mk
        (match u.current_channel with | some c => some c | none => h.current_channel)
        chans) := by
  unfold history_reducer
  cases hcl : applyChannelList now h.channels u.channel_updates with
  | error e => rfl
  | ok chans =>
    rw [htu]
    rfl

/-- Claim C6: two InternalUpdates that touch disjoint channel sets, carry no
tool_updates, and of which at most one sets current_channel, commute through
the history reducer: both application orders succeed on the same histories
and produce Histories that are equal in the sense of Python equality on the
store (same current_channel and channel dicts with identical lookups;
insertion order of newly created channels is the only difference). -/
theorem c6_disjoint_updates_commute (now : Date) (h hA hB : History)
    (u1 u2 : InternalUpdates)
    (hdisj : ∀ k, k ∈ dictKeys u1.channel_updates → k ∉ dictKeys u2.channel_updates)
    (ht1 : u1.tool_updates = []) (ht2 : u2.tool_updates = [])
    (hcc : u1.current_channel = none ∨ u2.current_channel = none)
    (h12 : (history_reducer now h u1).bind (fun x => history_reducer now x u2) = .ok hA)
    (h21 : (history_reducer now h u2).bind (fun x => history_reducer now x u1) = .ok hB) :
    hA.current_channel = hB.current_channel
    ∧ ∀ k, lookupD hA.channels k = lookupD hB.channels k := by
  rw [history_reducer_no_tools now h u1 ht1] at h12
  rw [history_reducer_no_tools now h u2 ht2] at h21
  cases hc1 : applyChannelList now h.channels u1.channel_updates with
  | error e =>
    rw [hc1] at h12
    cases h12
  | ok c1 =>
    rw [hc1] at h12
    have h12b : history_reducer now (History.mk
        (match u1.current_channel with | some c => some c | none => h.current_channel) c1)
        u2 = .ok hA := h12
    rw [history_reducer_no_tools now _ u2 ht2] at h12b
    cases hc12 : applyChannelList now c1 u2.channel_updates with
    | error e =>
      rw [hc12] at h12b
      cases h12b
    | ok c12 =>
      rw [hc12] at h12b
      cases hc2 : applyChannelList now h.channels u2.channel_updates with
      | error e =>
        rw [hc2] at h21
        cases h21
      | ok c2 =>
        rw [hc2] at h21
        have h21b : history_reducer now (History.mk
            (match u2.current_channel with | some c => some c | none => h.current_channel)
            c2) u1 = .ok hB := h21
        rw [history_reducer_no_tools now _ u1 ht1] at h21b
        cases hc21 : applyChannelList now c2 u1.channel_updates with
        | error e =>
          rw [hc21] at h21b
          cases h21b
        | ok c21 =>
          rw [hc21] at h21b
          cases h12b
          cases h21b
          have hfull12 : applyChannelList now h.channels
              (u1.channel_updates ++ u2.channel_updates) = .ok c12 := by
            rw [applyChannelList_append, hc1]
            exact hc12
          have hfull21 : applyChannelList now h.channels
              (u2.channel_updates ++ u1.channel_updates) = .ok c21 := by
            rw [applyChannelList_append, hc2]
            exact hc21
          have hch := applyChannelList_comm now u1.channel_updates u2.channel_updates
            h.channels c12 c21 hdisj hfull12 hfull21
          refine ⟨?_, hch⟩
          show (match u2.current_channel with
            | some c => some c
            | none => match u1.current_channel with
              | some c => some c
              | none => h.current_channel)
            = (match u1.current_channel with
              | some c => some c
              | none => match u2.current_channel with
                | some c => some c
                | none => h.current_channel)
          rcases hcc with hcc1 | hcc2
          · rw [hcc1]
          · rw [hcc2]

def c6U1 : InternalUpdates :=
  { channel_updates := [("a", { new_messages := [.human { content := "p", date := 3 }] })],
    current_channel := some "a" }

def c6U2 : InternalUpdates :=
  { channel_updates := [("b", { new_messages := [.human { content := "q", date := 4 }] })] }

def c6Seq1 : Except String History :=
  (history_reducer 9 {} c6U1).bind (fun x => history_reducer 9 x c6U2)

def c6Seq2 : Except String History :=
  (history_reducer 9 {} c6U2).bind (fun x => history_reducer 9 x c6U1)

def c6HA : History := match c6Seq1 with | .ok hh => hh | .error _ => {}

def c6HB : History := match c6Seq2 with | .ok hh => hh | .error _ => {}

/-- Witness for C6: two updates creating disjoint channels commute up to
Python dict equality of the channel stores. -/
theorem c6_disjoint_updates_commute_witness :
    (∀ k, k ∈ dictKeys c6U1.channel_updates → k ∉ dictKeys c6U2.channel_updates)
    ∧ c6U1.tool_updates = []
    ∧ c6U2.tool_updates = []
    ∧ (c6U1.current_channel = none ∨ c6U2.current_channel = none)
    ∧ c6Seq1 = .ok c6HA
    ∧ c6Seq2 = .ok c6HB
    ∧ (c6HA.current_channel = c6HB.current_channel
       ∧ ∀ k, lookupD c6HA.channels k = lookupD c6HB.channels k) := by
  have hd : ∀ k, k ∈ dictKeys c6U1.channel_updates → k ∉ dictKeys c6U2.channel_updates := by
    intro k hk
    have : k = "a" := by
      simpa [c6U1, dictKeys] using hk
    subst this
    decide
  refine ⟨hd, rfl, rfl, Or.inr rfl, rfl, rfl, ?_⟩
  exact c6_disjoint_updates_commute 9 {} c6HA c6HB c6U1 c6U2 hd rfl rfl (Or.inr rfl)
    (by rfl) (by rfl)
